import Mathlib

/-!
Verification development for the provisioner job orchestration engine
(`coderd`): parameter resolution, the job store and claim protocol, the
workspace build-history chain, and API-key creation.

The `database/models.go` record types are embedded as Lean structures.
Operations whose Go bodies are not part of the provided sources (the job
store, build-history and parameter-resolution engines) are modelled from
the specification text; each such definition carries a doc comment that
says so.  The API-key handlers (`coderd/apikey.go`) are embedded directly
from the Go source.

Conventions: machine times are `Nat` (an abstract monotone clock) for the
orchestration core, and `Int` nanoseconds for Go `time.Duration` values
in the API-key code; Go `sql.NullTime` / `uuid.NullUUID` become `Option`;
fallible operations return `Except`.
-/

/- ### Shared enumerations, from `database/models.go` -/

/-- `ParameterScope` (`models.go`): the five override scopes. -/
inductive ParameterScope where
  | organization
  | project
  | importJob
  | user
  | workspace
deriving DecidableEq, Repr

/-- `ParameterSourceScheme` (`models.go`). -/
inductive ParameterSourceScheme where
  | none
  | data
deriving DecidableEq, Repr

/-- `ParameterDestinationScheme` (`models.go`). -/
inductive ParameterDestinationScheme where
  | none
  | environmentVariable
  | provisionerVariable
deriving DecidableEq, Repr

/-- `ParameterSchema` (`models.go`): the fields that drive resolution.
Validation fields are carried but not interpreted here (the HCL
evaluator is an external tool). -/
structure ParameterSchema where
  name : String
  description : String
  defaultSourceScheme : ParameterSourceScheme
  defaultSourceValue : String
  allowOverrideSource : Bool
  defaultDestinationScheme : ParameterDestinationScheme
  allowOverrideDestination : Bool
  redisplayValue : Bool
  validationCondition : String
deriving DecidableEq, Repr

/-- `ParameterValue` (`models.go`): a concrete override at one scope. -/
structure ParameterValue where
  name : String
  scope : ParameterScope
  scopeID : String
  sourceScheme : ParameterSourceScheme
  sourceValue : String
  destinationScheme : ParameterDestinationScheme
deriving DecidableEq, Repr

/- ### Parameter resolution (spec §4.5) -/

/-- The final value and destination computed for one parameter. -/
structure ResolvedParameter where
  sourceScheme : ParameterSourceScheme
  sourceValue : String
  destinationScheme : ParameterDestinationScheme
deriving DecidableEq, Repr

/-- Modelled from the spec: the resolver's starting point for a schema is
its default source/value and destination (the Go resolution engine is not
among the provided sources). -/
def defaultResolution (sch : ParameterSchema) : ResolvedParameter :=
  { sourceScheme := sch.defaultSourceScheme
    sourceValue := sch.defaultSourceValue
    destinationScheme := sch.defaultDestinationScheme }

/-- Modelled from the spec: applying one (possibly absent) matching
Parameter Value override to an accumulated resolution.
`allowOverrideSource` / `allowOverrideDestination` on the schema gate
whether the override is honored even if present. -/
def applyOverride (sch : ParameterSchema) (acc : ResolvedParameter)
    (v : Option ParameterValue) : ResolvedParameter :=
  match v with
  | Option.none => acc
  | Option.some pv =>
      { sourceScheme :=
          if sch.allowOverrideSource then pv.sourceScheme else acc.sourceScheme
        sourceValue :=
          if sch.allowOverrideSource then pv.sourceValue else acc.sourceValue
        destinationScheme :=
          if sch.allowOverrideDestination then pv.destinationScheme
          else acc.destinationScheme }

/-- The scopes in increasing specificity order
(organization → project → import-job → user → workspace), spec §4.5. -/
def scopeOrder : List ParameterScope :=
  [ParameterScope.organization, ParameterScope.project,
   ParameterScope.importJob, ParameterScope.user, ParameterScope.workspace]

/-- Rank of a scope in the specificity order (higher = more specific). -/
def scopeRank : ParameterScope → Nat
  | ParameterScope.organization => 0
  | ParameterScope.project => 1
  | ParameterScope.importJob => 2
  | ParameterScope.user => 3
  | ParameterScope.workspace => 4

/-- Modelled from the spec: resolve one schema against the matching
Parameter Value (if any) at each scope, applying overrides in increasing
specificity order; the last applicable override wins. -/
def resolve (sch : ParameterSchema) (vals : ParameterScope → Option ParameterValue) :
    ResolvedParameter :=
  scopeOrder.foldl (fun acc s => applyOverride sch acc (vals s)) (defaultResolution sch)

/-- Modelled from the spec: resolution from an unordered list of Parameter
Values — for each scope the matching value is the one whose name matches
the schema and whose scope is that scope. -/
def resolveFromList (sch : ParameterSchema) (values : List ParameterValue) :
    ResolvedParameter :=
  resolve sch (fun s => values.find? (fun v => v.name = sch.name ∧ v.scope = s))

/- ### Job store (spec §4.1; record shape from `ProvisionerJob` in `models.go`) -/

/-- `ProvisionerJobType` (`models.go`). -/
inductive ProvisionerJobType where
  | projectVersionImport
  | workspaceProvision
deriving DecidableEq, Repr

/-- Embedding of the `ProvisionerJob` record (`models.go`): nullable
columns become `Option`; times are abstract `Nat` instants; UUIDs are
`Nat` identities. -/
structure ProvisionerJob where
  id : Nat
  createdAt : Nat
  startedAt : Option Nat
  cancelledAt : Option Nat
  completedAt : Option Nat
  jobError : Option String
  jobType : ProvisionerJobType
  input : String
  storageSource : String
  workerID : Option Nat
deriving DecidableEq, Repr

/-- A job is terminal once `completedAt` or `cancelledAt` is set. -/
def ProvisionerJob.isTerminal (j : ProvisionerJob) : Bool :=
  j.completedAt.isSome || j.cancelledAt.isSome

/-- A job is pending while it has no start timestamp and is not terminal. -/
def ProvisionerJob.isPending (j : ProvisionerJob) : Bool :=
  j.startedAt.isNone && !j.isTerminal

/-- Modelled from the spec: a job is eligible for a claim when it is
pending (the claim step observes a cancellation and refuses to run the
job), has no assigned worker, and its type is accepted by the daemon. -/
def ProvisionerJob.eligible (accepted : List ProvisionerJobType) (j : ProvisionerJob) : Bool :=
  j.workerID.isNone && j.isPending && accepted.contains j.jobType

/-- The job store: jobs in creation order plus a fresh-identity counter. -/
structure JobStore where
  jobs : List ProvisionerJob
  nextID : Nat
deriving DecidableEq, Repr

def emptyJobStore : JobStore := { jobs := [], nextID := 0 }

/-- Typed errors of the job store (spec §7). -/
inductive JobStoreError where
  | invalidInput
  | invalidState
  | alreadyTerminal
  | notFound
deriving DecidableEq, Repr

def findJob (s : JobStore) (jobID : Nat) : Option ProvisionerJob :=
  s.jobs.find? (fun j => j.id = jobID)

def updateJob (s : JobStore) (jobID : Nat) (f : ProvisionerJob → ProvisionerJob) : JobStore :=
  { s with jobs := s.jobs.map (fun j => if j.id = jobID then f j else j) }

/-- Modelled from the spec: `Enqueue(type, payload, storageRef) → Job`
creates a job in the pending state; fails with `InvalidInput` if the
payload or storage reference is empty. -/
def enqueueJob (s : JobStore) (jt : ProvisionerJobType) (payload storageRef : String)
    (now : Nat) : JobStore × Except JobStoreError ProvisionerJob :=
  if payload = "" ∨ storageRef = "" then (s, Except.error JobStoreError.invalidInput)
  else
    let j : ProvisionerJob :=
      { id := s.nextID, createdAt := now, startedAt := none, cancelledAt := none
        completedAt := none, jobError := none, jobType := jt, input := payload
        storageSource := storageRef, workerID := none }
    ({ jobs := s.jobs ++ [j], nextID := s.nextID + 1 }, Except.ok j)

/-- Modelled from the spec: `Claim(daemonID, acceptedTypes)` atomically
selects the oldest pending job of an accepted type with no assigned
worker, sets `startedAt` and `workerID`, and returns it; returns none if
no eligible job exists.  The whole function is one atomic step of the
store, which is exactly the "claim if still unclaimed" conditional
update the spec demands. -/
def claimJob (s : JobStore) (daemonID : Nat) (accepted : List ProvisionerJobType)
    (now : Nat) : JobStore × Option ProvisionerJob :=
  match s.jobs.find? (ProvisionerJob.eligible accepted) with
  | Option.none => (s, none)
  | Option.some j =>
      let j' := { j with startedAt := some now, workerID := some daemonID }
      (updateJob s j.id (fun _ => j'), some j')

/-- Modelled from the spec: `Complete(jobID, result)` transitions a
claimed, non-terminal job to completed; on a terminal or unclaimed job it
fails with `InvalidState`. -/
def completeJob (s : JobStore) (jobID : Nat) (now : Nat) :
    JobStore × Except JobStoreError Unit :=
  match findJob s jobID with
  | Option.none => (s, Except.error JobStoreError.notFound)
  | Option.some j =>
      if j.isTerminal || j.workerID.isNone then (s, Except.error JobStoreError.invalidState)
      else (updateJob s jobID (fun x => { x with completedAt := some now }), Except.ok ())

/-- Modelled from the spec: `Fail(jobID, error)` is `Complete` with an
error text recorded (the failed terminal state is the completion
timestamp plus the error column of `ProvisionerJob`). -/
def failJob (s : JobStore) (jobID : Nat) (msg : String) (now : Nat) :
    JobStore × Except JobStoreError Unit :=
  match findJob s jobID with
  | Option.none => (s, Except.error JobStoreError.notFound)
  | Option.some j =>
      if j.isTerminal || j.workerID.isNone then (s, Except.error JobStoreError.invalidState)
      else
        (updateJob s jobID
          (fun x => { x with completedAt := some now, jobError := some msg }), Except.ok ())

/-- Modelled from the spec: `Cancel(jobID)` marks a non-terminal job
cancelled (reachable from both pending and running); on an
already-terminal job it is a no-op reported as `AlreadyTerminal`. -/
def cancelJob (s : JobStore) (jobID : Nat) (now : Nat) :
    JobStore × Except JobStoreError Unit :=
  match findJob s jobID with
  | Option.none => (s, Except.error JobStoreError.notFound)
  | Option.some j =>
      if j.isTerminal then (s, Except.error JobStoreError.alreadyTerminal)
      else (updateJob s jobID (fun x => { x with cancelledAt := some now }), Except.ok ())

/-- One request against the job store. -/
inductive JobOp where
  | enqueue (jt : ProvisionerJobType) (payload storageRef : String)
  | claim (daemonID : Nat) (accepted : List ProvisionerJobType)
  | complete (jobID : Nat)
  | fail (jobID : Nat) (msg : String)
  | cancel (jobID : Nat)
deriving DecidableEq, Repr

/-- The store component of one operation's effect. -/
def applyJobOp (s : JobStore) (op : JobOp) (now : Nat) : JobStore :=
  match op with
  | JobOp.enqueue jt payload storageRef => (enqueueJob s jt payload storageRef now).1
  | JobOp.claim daemonID accepted => (claimJob s daemonID accepted now).1
  | JobOp.complete jobID => (completeJob s jobID now).1
  | JobOp.fail jobID msg => (failJob s jobID msg now).1
  | JobOp.cancel jobID => (cancelJob s jobID now).1

/-- Every timestamp recorded on the job is at most `t`. -/
def jobTimesLE (j : ProvisionerJob) (t : Nat) : Bool :=
  decide (j.createdAt ≤ t) &&
  (match j.startedAt with | Option.none => true | Option.some u => decide (u ≤ t)) &&
  (match j.cancelledAt with | Option.none => true | Option.some u => decide (u ≤ t)) &&
  (match j.completedAt with | Option.none => true | Option.some u => decide (u ≤ t))

/-- The clock handed to an operation is at or after every time already in
the store. -/
def storeTimesLE (s : JobStore) (t : Nat) : Bool :=
  s.jobs.all (fun j => jobTimesLE j t)

/-- States of the job store reachable from the empty store under a
monotone clock: each operation executes at an instant no earlier than any
timestamp already recorded. -/
inductive ReachableStore : JobStore → Prop where
  | init : ReachableStore emptyJobStore
  | step {s : JobStore} (op : JobOp) (now : Nat) :
      ReachableStore s → storeTimesLE s now = true →
      ReachableStore (applyJobOp s op now)

/-- The four timestamp configurations of spec §3: never started, started,
cancelled, completed.  Exactly one must be populated. -/
def jobPhaseCount (j : ProvisionerJob) : Nat :=
  (if j.startedAt.isNone ∧ j.cancelledAt.isNone ∧ j.completedAt.isNone then 1 else 0) +
  (if j.startedAt.isSome ∧ j.cancelledAt.isNone ∧ j.completedAt.isNone then 1 else 0) +
  (if j.cancelledAt.isSome ∧ j.completedAt.isNone then 1 else 0) +
  (if j.completedAt.isSome then 1 else 0)

/-- Per-job well-formedness captured by the reachability invariant. -/
def JobWF (j : ProvisionerJob) : Prop :=
  (j.workerID.isSome → j.startedAt.isSome) ∧
  (j.completedAt.isSome → j.workerID.isSome) ∧
  ¬(j.completedAt.isSome ∧ j.cancelledAt.isSome) ∧
  (∀ t, j.startedAt = some t → j.createdAt ≤ t) ∧
  (∀ ts tc, j.startedAt = some ts → j.completedAt = some tc → ts ≤ tc) ∧
  (∀ ts tc, j.startedAt = some ts → j.cancelledAt = some tc → ts ≤ tc) ∧
  (∀ tc, j.cancelledAt = some tc → j.createdAt ≤ tc)

/-- Store-level well-formedness: job identities are unique and below the
fresh counter, and every job is well-formed. -/
def StoreWF (s : JobStore) : Prop :=
  (s.jobs.map ProvisionerJob.id).Nodup ∧
  (∀ j ∈ s.jobs, j.id < s.nextID) ∧
  (∀ j ∈ s.jobs, JobWF j)

/-- Run a sequence of claim calls (daemon identity and accepted types),
all against the same store, collecting each call's result.  Because each
`claimJob` is one atomic step, an arbitrary concurrent interleaving of
claim calls is exactly some sequential order of them. -/
def runClaims (s : JobStore) (now : Nat) :
    List (Nat × List ProvisionerJobType) → JobStore × List (Option ProvisionerJob)
  | [] => (s, [])
  | c :: cs =>
      let r := claimJob s c.1 c.2 now
      let rest := runClaims r.1 now cs
      (rest.1, r.2 :: rest.2)

/-- How many of the collected claim results claimed the job with the given
identity. -/
def claimsOf (results : List (Option ProvisionerJob)) (jobID : Nat) : Nat :=
  results.countP (fun r => match r with
    | Option.none => false
    | Option.some j => j.id = jobID)

/- ### Build history chain (spec §4.4; record shape from `WorkspaceHistory` in `models.go`) -/

/-- `WorkspaceTransition` (`models.go`). -/
inductive WorkspaceTransition where
  | start
  | stop
  | delete
deriving DecidableEq, Repr

/-- Embedding of the `WorkspaceHistory` record (`models.go`): one build of
a workspace, linked to its neighbours through the nullable `BeforeID` /
`AfterID` references and to the job realising it. -/
structure WorkspaceHistory where
  id : Nat
  createdAt : Nat
  workspaceID : Nat
  projectVersionID : Nat
  transition : WorkspaceTransition
  initiator : String
  provisionerState : String
  beforeID : Option Nat
  afterID : Option Nat
  provisionJobID : Nat
deriving DecidableEq, Repr

/-- Typed errors of the build-history chain (spec §7). -/
inductive BuildError where
  | conflict
  | invalidInput
  | corruptHistory
deriving DecidableEq, Repr

/-- The orchestration state: the job store plus the build records and a
fresh build-identity counter. -/
structure CoderState where
  store : JobStore
  builds : List WorkspaceHistory
  nextBuildID : Nat
deriving DecidableEq, Repr

def emptyCoderState : CoderState :=
  { store := emptyJobStore, builds := [], nextBuildID := 0 }

/-- The builds of one workspace, in storage (= creation) order. -/
def buildsOf (s : CoderState) (wid : Nat) : List WorkspaceHistory :=
  s.builds.filter (fun b => b.workspaceID = wid)

/-- A build whose referenced job is non-terminal is in flight. -/
def buildInFlight (s : CoderState) (b : WorkspaceHistory) : Bool :=
  match findJob s.store b.provisionJobID with
  | Option.none => false
  | Option.some j => !j.isTerminal

/-- The workspace already has a build whose job is non-terminal. -/
def hasInFlightBuild (s : CoderState) (wid : Nat) : Bool :=
  (buildsOf s wid).any (buildInFlight s)

/-- Modelled from the spec: `RequestBuild(workspaceID, versionID,
transition, initiator) → Build` fails with `Conflict` if the workspace
already has a build whose job is non-terminal; otherwise it enqueues a
`provision` job with the resolved payload, creates a build whose `before`
reference is the previous latest build of the workspace, and sets that
previous build's `after` reference to the new one.  A failed request
enqueues no job and changes no state. -/
def requestBuild (s : CoderState) (wid vid : Nat) (tr : WorkspaceTransition)
    (initiator : String) (payload storageRef : String) (now : Nat) :
    CoderState × Except BuildError WorkspaceHistory :=
  if hasInFlightBuild s wid then (s, Except.error BuildError.conflict)
  else
    match enqueueJob s.store ProvisionerJobType.workspaceProvision payload storageRef now with
    | (_, Except.error _) => (s, Except.error BuildError.invalidInput)
    | (store', Except.ok job) =>
        let prev := (buildsOf s wid).getLast?
        let nb : WorkspaceHistory :=
          { id := s.nextBuildID, createdAt := now, workspaceID := wid
            projectVersionID := vid, transition := tr, initiator := initiator
            provisionerState := "", beforeID := prev.map (fun p => p.id)
            afterID := none, provisionJobID := job.id }
        let builds' :=
          (s.builds.map (fun b =>
            if some b.id = prev.map (fun p => p.id) then { b with afterID := some nb.id }
            else b)) ++ [nb]
        ({ store := store', builds := builds', nextBuildID := s.nextBuildID + 1 },
          Except.ok nb)

/-- Modelled from the spec: `ImportVersion(configRef) → Job` enqueues a
job of type `import` to derive a parameter schema, independent of any
workspace; no build record is created. -/
def importVersion (s : CoderState) (configRef : String) (now : Nat) :
    CoderState × Except BuildError ProvisionerJob :=
  match enqueueJob s.store ProvisionerJobType.projectVersionImport configRef configRef now with
  | (store', Except.error _) => ({ s with store := store' }, Except.error BuildError.invalidInput)
  | (store', Except.ok job) => ({ s with store := store' }, Except.ok job)

/- ### History reconstruction (spec §4.4) -/

def findBuild (bs : List WorkspaceHistory) (buildID : Nat) : Option WorkspaceHistory :=
  bs.find? (fun b => b.id = buildID)

/-- Modelled from the spec: follow the `after` links from the earliest
entry, collecting the chain.  A reference to an identity not present in
storage (a dangling reference) and a revisited entry (a cycle) are
detected and reported as corrupt; the fuel bounds the walk by the number
of stored entries. -/
def traverseChain (bs : List WorkspaceHistory) :
    Nat → List Nat → WorkspaceHistory → Except BuildError (List WorkspaceHistory)
  | 0, visited, b =>
    if b.id ∈ visited then Except.error BuildError.corruptHistory
    else
      match b.afterID with
      | Option.none => Except.ok [b]
      | Option.some _ => Except.error BuildError.corruptHistory
  | fuel' + 1, visited, b =>
    if b.id ∈ visited then Except.error BuildError.corruptHistory
    else
      match b.afterID with
      | Option.none => Except.ok [b]
      | Option.some nextID =>
          match findBuild bs nextID with
          | Option.none => Except.error BuildError.corruptHistory
          | Option.some c =>
              if c.beforeID = some b.id then
                Except.map (fun l => b :: l) (traverseChain bs fuel' (b.id :: visited) c)
              else Except.error BuildError.corruptHistory

/-- Modelled from the spec: `History(workspaceID)` reconstructs the build
order of a workspace from unordered storage by following the
before/after links from the unique entry with no predecessor, and fails
with `CorruptHistory` when the chain has a cycle or a dangling reference
(or does not cover all stored entries of the workspace). -/
def history (s : CoderState) (wid : Nat) : Except BuildError (List WorkspaceHistory) :=
  let ws := buildsOf s wid
  match ws.filter (fun b => b.beforeID.isNone) with
  | [] =>
      match ws with
      | [] => Except.ok []
      | _ :: _ => Except.error BuildError.corruptHistory
  | [start] =>
      match traverseChain ws ws.length [] start with
      | Except.error e => Except.error e
      | Except.ok l =>
          if l.length = ws.length then Except.ok l
          else Except.error BuildError.corruptHistory
  | _ :: _ :: _ => Except.error BuildError.corruptHistory

/- ### Orchestration traces -/

/-- One request against the orchestration core. -/
inductive CoderOp where
  | requestBuild (wid vid : Nat) (tr : WorkspaceTransition)
      (initiator payload storageRef : String)
  | importVersion (configRef : String)
  | jobOp (op : JobOp)
deriving DecidableEq, Repr

/-- Whether an operation is a `RequestBuild` for the given workspace. -/
def CoderOp.isRequestBuildFor (op : CoderOp) (wid : Nat) : Bool :=
  match op with
  | CoderOp.requestBuild wid' _ _ _ _ _ => wid' = wid
  | _ => false

/-- Outcome of one orchestration step, as observed by the caller. -/
inductive CoderOutcome where
  | build (b : WorkspaceHistory)
  | job (j : ProvisionerJob)
  | buildErr (e : BuildError)
  | jobDone
  | jobErr (e : JobStoreError)
  | claimed (j : Option ProvisionerJob)
deriving DecidableEq, Repr

/-- Apply one operation at one instant. -/
def applyCoderOp (s : CoderState) (op : CoderOp) (now : Nat) : CoderState × CoderOutcome :=
  match op with
  | CoderOp.requestBuild wid vid tr initiator payload storageRef =>
      match requestBuild s wid vid tr initiator payload storageRef now with
      | (s', Except.ok b) => (s', CoderOutcome.build b)
      | (s', Except.error e) => (s', CoderOutcome.buildErr e)
  | CoderOp.importVersion configRef =>
      match importVersion s configRef now with
      | (s', Except.ok j) => (s', CoderOutcome.job j)
      | (s', Except.error e) => (s', CoderOutcome.buildErr e)
  | CoderOp.jobOp (JobOp.enqueue jt payload storageRef) =>
      match enqueueJob s.store jt payload storageRef now with
      | (store', Except.ok j) => ({ s with store := store' }, CoderOutcome.job j)
      | (store', Except.error e) => ({ s with store := store' }, CoderOutcome.jobErr e)
  | CoderOp.jobOp (JobOp.claim daemonID accepted) =>
      let r := claimJob s.store daemonID accepted now
      ({ s with store := r.1 }, CoderOutcome.claimed r.2)
  | CoderOp.jobOp (JobOp.complete jobID) =>
      match completeJob s.store jobID now with
      | (store', Except.ok _) => ({ s with store := store' }, CoderOutcome.jobDone)
      | (store', Except.error e) => ({ s with store := store' }, CoderOutcome.jobErr e)
  | CoderOp.jobOp (JobOp.fail jobID msg) =>
      match failJob s.store jobID msg now with
      | (store', Except.ok _) => ({ s with store := store' }, CoderOutcome.jobDone)
      | (store', Except.error e) => ({ s with store := store' }, CoderOutcome.jobErr e)
  | CoderOp.jobOp (JobOp.cancel jobID) =>
      match cancelJob s.store jobID now with
      | (store', Except.ok _) => ({ s with store := store' }, CoderOutcome.jobDone)
      | (store', Except.error e) => ({ s with store := store' }, CoderOutcome.jobErr e)

/-- Every time in the orchestration state is strictly before `t`. -/
def coderTimesLT (s : CoderState) (t : Nat) : Bool :=
  s.store.jobs.all (fun j => jobTimesLE j t && decide (j.createdAt ≠ t) &&
    decide (j.startedAt ≠ some t) && decide (j.cancelledAt ≠ some t) &&
    decide (j.completedAt ≠ some t)) &&
  s.builds.all (fun b => decide (b.createdAt < t))

/-- Run a trace of timed operations, collecting each step's outcome. -/
def runCoder (s : CoderState) : List (CoderOp × Nat) → CoderState × List CoderOutcome
  | [] => (s, [])
  | (op, t) :: rest =>
      let r := applyCoderOp s op t
      let rr := runCoder r.1 rest
      (rr.1, r.2 :: rr.2)

/-- A trace is timed validly from `s` when each step executes strictly
after every instant already recorded (the database clock is monotone and
no two records are created at the same instant). -/
def validTimes (s : CoderState) : List (CoderOp × Nat) → Bool
  | [] => true
  | (op, t) :: rest => coderTimesLT s t && validTimes (applyCoderOp s op t).1 rest

/-- Orchestration states reachable by a validly-timed trace. -/
def ReachableCoder (s : CoderState) : Prop :=
  ∃ trace, validTimes emptyCoderState trace = true ∧
    (runCoder emptyCoderState trace).1 = s

/-- The number of successful `RequestBuild` calls for a workspace in a
trace's outcome list: those steps that returned a build of the
workspace. -/
def successfulBuildsFor (outcomes : List CoderOutcome) (wid : Nat) : Nat :=
  outcomes.countP (fun o => match o with
    | CoderOutcome.build b => b.workspaceID = wid
    | _ => false)

/- ### Chain well-formedness and corruption predicates -/

/-- Two builds are chain-linked when the first's `after` reference names
the second and the second's `before` reference names the first. -/
def ChainLink (a b : WorkspaceHistory) : Prop :=
  a.afterID = some b.id ∧ b.beforeID = some a.id

/-- A list of builds is a well-formed chain: consecutive entries are
linked both ways, the first has no predecessor, the last has no
successor, identities are unique, and creation times strictly increase. -/
def WFChain (l : List WorkspaceHistory) : Prop :=
  List.Chain' ChainLink l ∧
  (∀ b, l.head? = some b → b.beforeID = Option.none) ∧
  (∀ b, l.getLast? = some b → b.afterID = Option.none) ∧
  (l.map WorkspaceHistory.id).Nodup ∧
  List.Chain' (fun a b => a.createdAt < b.createdAt) l

/-- One hop along an `after` reference, within the stored entries. -/
def AfterStep (bs : List WorkspaceHistory) (b c : WorkspaceHistory) : Prop :=
  b ∈ bs ∧ c ∈ bs ∧ b.afterID = some c.id

/-- One hop along a `before` reference, within the stored entries. -/
def BeforeStep (bs : List WorkspaceHistory) (b c : WorkspaceHistory) : Prop :=
  b ∈ bs ∧ c ∈ bs ∧ b.beforeID = some c.id

/-- The stored entries contain a cycle of `after` or of `before`
references. -/
def HasCycle (bs : List WorkspaceHistory) : Prop :=
  ∃ b, Relation.TransGen (AfterStep bs) b b ∨ Relation.TransGen (BeforeStep bs) b b

/-- Some stored entry's `before` or `after` reference names an identity
that is not stored: a dangling reference. -/
def HasDangling (bs : List WorkspaceHistory) : Prop :=
  ∃ b ∈ bs,
    (∃ i, b.afterID = some i ∧ ∀ c ∈ bs, c.id ≠ i) ∨
    (∃ i, b.beforeID = some i ∧ ∀ c ∈ bs, c.id ≠ i)

/- ### API keys (`coderd/apikey.go`, embedded from the Go source) -/

/-- `database.APIKeyScopeAll`. -/
def APIKeyScopeAll : String := "all"

/-- `database.APIKeyScopeApplicationConnect`. -/
def APIKeyScopeApplicationConnect : String := "application_connect"

/-- The deployment configuration consumed by the API-key code.  Durations
are `Int` nanoseconds, like Go's `time.Duration`. -/
structure DeploymentValues where
  maxTokenLifetime : Int
  sessionDuration : Int
deriving DecidableEq, Repr

/-- `createAPIKeyParams` (`apikey.go`): times are `Int` instants with `0`
playing the role of Go's zero `time.Time` (`IsZero`). -/
structure CreateAPIKeyParams where
  userID : Nat
  remoteAddr : String
  loginType : String
  expiresAt : Int
  lifetimeSeconds : Int
  scope : String
  tokenName : String
deriving DecidableEq, Repr

/-- The row handed to `InsertAPIKey` — the fields the claims are about.
`ipBytes`/`maskBytes` are the byte forms of the stored `pqtype.Inet`. -/
structure InsertAPIKeyParams where
  userID : Nat
  lifetimeSeconds : Int
  ipBytes : List Nat
  maskBytes : List Nat
  ipValid : Bool
  expiresAt : Int
  loginType : String
  scope : String
  tokenName : String
deriving DecidableEq, Repr

/-- Go's `net.IPv4(0, 0, 0, 0)`: the 16-byte IPv4-in-IPv6 form of
`0.0.0.0`. -/
def netIPv4Zero : List Nat :=
  [0, 0, 0, 0, 0, 0, 0, 0, 0, 0, 255, 255, 0, 0, 0, 0]

/-- Go's `net.CIDRMask(ones, bits)` byte computation for one byte row:
`ones` leading one-bits remaining. -/
def cidrMaskBytes : Nat → Nat → List Nat
  | 0, _ => []
  | l + 1, n =>
      if 8 ≤ n then 255 :: cidrMaskBytes l (n - 8)
      else (255 - (255 >>> n)) :: cidrMaskBytes l 0

/-- Go's `net.CIDRMask(ones, bits)`: `none` is Go's `nil` result. -/
def cidrMask (ones bits : Nat) : Option (List Nat) :=
  if bits % 8 ≠ 0 then none
  else if ones > bits then none
  else some (cidrMaskBytes (bits / 8) ones)

/-- `createAPIKey` (`apikey.go`), embedded from the Go source as the row
it inserts or the error it returns.  External effects are parameters:
`now` stands for `database.Now()` and `parsedRemoteAddr` for the result
of `net.ParseIP(params.RemoteAddr)` (`none` when the address does not
parse); ID/secret generation and the database write are outside the
function's decision logic and are not modelled. -/
def createAPIKey (dv : DeploymentValues) (now : Int) (parsedRemoteAddr : Option (List Nat))
    (params : CreateAPIKeyParams) : Except String InsertAPIKeyParams :=
  let params :=
    if params.expiresAt = 0 then
      if params.lifetimeSeconds ≠ 0 then
        { params with expiresAt := now + params.lifetimeSeconds * 1000000000 }
      else
        { params with expiresAt := now + dv.sessionDuration
                      lifetimeSeconds := dv.sessionDuration / 1000000000 }
    else params
  let params :=
    if params.lifetimeSeconds = 0 then
      { params with lifetimeSeconds := (params.expiresAt - now) / 1000000000 }
    else params
  let ip := match parsedRemoteAddr with
    | Option.none => netIPv4Zero
    | Option.some bytes => bytes
  let bitlen := ip.length * 8
  let scope := if params.scope ≠ "" then params.scope else APIKeyScopeAll
  if scope = APIKeyScopeAll ∨ scope = APIKeyScopeApplicationConnect then
    Except.ok
      { userID := params.userID
        lifetimeSeconds := params.lifetimeSeconds
        ipBytes := ip
        maskBytes := (cidrMask bitlen bitlen).getD []
        ipValid := true
        expiresAt := params.expiresAt
        loginType := params.loginType
        scope := scope
        tokenName := params.tokenName }
  else Except.error ("invalid API key scope: " ++ scope)

/-- `codersdk.CreateTokenRequest`: `lifetime` is `Int` nanoseconds. -/
structure CreateTokenRequest where
  scope : String
  lifetime : Int
  tokenName : String
deriving DecidableEq, Repr

/-- The scope computation at the top of `postToken` (`apikey.go`): the
guard re-tests the just-assigned default, not the request value. -/
def postTokenScope (reqScope : String) : String :=
  let scope := APIKeyScopeAll
  if scope ≠ "" then reqScope else scope

/-- The default token lifetime in `postToken`: 30 days, as `Int`
nanoseconds (`30 * 24 * time.Hour`). -/
def defaultTokenLifetime : Int := 30 * 24 * 3600 * 1000000000

/-- The effective lifetime chosen by `postToken`: the request's value
unless it is zero, in which case the 30-day default. -/
def postTokenLifetime (req : CreateTokenRequest) : Int :=
  if req.lifetime ≠ 0 then req.lifetime else defaultTokenLifetime

/-- `validateAPIKeyLifetime` (`apikey.go`): `some` an error message when
the lifetime is rejected. -/
def validateAPIKeyLifetime (dv : DeploymentValues) (lifetime : Int) : Option String :=
  if lifetime ≤ 0 then some "lifetime must be positive number greater than 0"
  else if lifetime > dv.maxTokenLifetime then some "lifetime must be less than the maximum"
  else none

/-- The observable outcome of `postToken`. -/
inductive PostTokenResult where
  | badRequest
  | failure
  | created (key : InsertAPIKeyParams)
deriving DecidableEq, Repr

/-- `postToken` (`apikey.go`), embedded from the Go source: choose the
scope and lifetime, validate the lifetime (HTTP 400 on rejection, before
any key is created), then create the key.  `tokenName` stands for the
random name when the request carries none; `postToken` passes no
`RemoteAddr`, so the parse result is `none`. -/
def postToken (dv : DeploymentValues) (now : Int) (userID : Nat) (randomName : String)
    (req : CreateTokenRequest) : PostTokenResult :=
  let scope := postTokenScope req.scope
  let lifeTime := postTokenLifetime req
  let tokenName := if req.tokenName.length ≠ 0 then req.tokenName else randomName
  match validateAPIKeyLifetime dv lifeTime with
  | Option.some _ => PostTokenResult.badRequest
  | Option.none =>
      match createAPIKey dv now none
          { userID := userID, remoteAddr := "", loginType := "token"
            expiresAt := now + lifeTime, lifetimeSeconds := lifeTime / 1000000000
            scope := scope, tokenName := tokenName } with
      | Except.error _ => PostTokenResult.failure
      | Except.ok key => PostTokenResult.created key

/-- Whole-state well-formedness: the job store is well-formed, build
identities are unique and below the fresh counter, every build's job
exists, and every workspace's builds form a well-formed chain. -/
def CoderInv (s : CoderState) : Prop :=
  StoreWF s.store ∧
  (s.builds.map WorkspaceHistory.id).Nodup ∧
  (∀ b ∈ s.builds, b.id < s.nextBuildID) ∧
  (∀ b ∈ s.builds, b.provisionJobID ∈ s.store.jobs.map ProvisionerJob.id) ∧
  (∀ wid, WFChain (buildsOf s wid))

/-- The constraint every accumulated resolution satisfies: a component
whose override flag is off never leaves its schema default. -/
def ResInv (sch : ParameterSchema) (acc : ResolvedParameter) : Prop :=
  (sch.allowOverrideSource = false →
    acc.sourceScheme = sch.defaultSourceScheme ∧ acc.sourceValue = sch.defaultSourceValue) ∧
  (sch.allowOverrideDestination = false →
    acc.destinationScheme = sch.defaultDestinationScheme)

/- ### Theorems: parameter resolution -/

theorem resInv_default (sch : ParameterSchema) : ResInv sch (defaultResolution sch) := by
  constructor <;> intro h <;> simp [defaultResolution]

theorem resInv_apply (sch : ParameterSchema) (acc : ResolvedParameter)
    (v : Option ParameterValue) (h : ResInv sch acc) :
    ResInv sch (applyOverride sch acc v) := by
  cases v with
  | none => exact h
  | some pv =>
      obtain ⟨h1, h2⟩ := h
      constructor
      · intro hs
        simp [applyOverride, hs]
        exact h1 hs
      · intro hd
        simp [applyOverride, hd]
        exact h2 hd

theorem resInv_foldl (sch : ParameterSchema) (vals : ParameterScope → Option ParameterValue)
    (l : List ParameterScope) (acc : ResolvedParameter) (h : ResInv sch acc) :
    ResInv sch (l.foldl (fun a s => applyOverride sch a (vals s)) acc) := by
  induction l generalizing acc with
  | nil => exact h
  | cons x xs ih => exact ih _ (resInv_apply sch acc (vals x) h)

theorem applyOverride_congr (sch : ParameterSchema) (acc₁ acc₂ : ResolvedParameter)
    (v : ParameterValue) (h₁ : ResInv sch acc₁) (h₂ : ResInv sch acc₂) :
    applyOverride sch acc₁ (some v) = applyOverride sch acc₂ (some v) := by
  obtain ⟨h₁s, h₁d⟩ := h₁
  obtain ⟨h₂s, h₂d⟩ := h₂
  cases hs : sch.allowOverrideSource <;> cases hd : sch.allowOverrideDestination
  · simp [applyOverride, hs, hd, (h₁s hs).1, (h₁s hs).2, (h₂s hs).1, (h₂s hs).2,
      h₁d hd, h₂d hd]
  · simp [applyOverride, hs, hd, (h₁s hs).1, (h₁s hs).2, (h₂s hs).1, (h₂s hs).2]
  · simp [applyOverride, hs, hd, h₁d hd, h₂d hd]
  · simp [applyOverride, hs, hd]

theorem foldl_source_of_no_override (sch : ParameterSchema)
    (vals : ParameterScope → Option ParameterValue) (h : sch.allowOverrideSource = false)
    (l : List ParameterScope) (acc : ResolvedParameter) :
    (l.foldl (fun a s => applyOverride sch a (vals s)) acc).sourceValue = acc.sourceValue ∧
    (l.foldl (fun a s => applyOverride sch a (vals s)) acc).sourceScheme = acc.sourceScheme := by
  induction l generalizing acc with
  | nil => exact ⟨rfl, rfl⟩
  | cons x xs ih =>
      have hstep : (applyOverride sch acc (vals x)).sourceValue = acc.sourceValue ∧
          (applyOverride sch acc (vals x)).sourceScheme = acc.sourceScheme := by
        cases vals x with
        | none => exact ⟨rfl, rfl⟩
        | some pv => simp [applyOverride, h]
      obtain ⟨hv, hs⟩ := ih (applyOverride sch acc (vals x))
      exact ⟨hv.trans hstep.1, hs.trans hstep.2⟩

theorem foldl_dest_of_no_override (sch : ParameterSchema)
    (vals : ParameterScope → Option ParameterValue) (h : sch.allowOverrideDestination = false)
    (l : List ParameterScope) (acc : ResolvedParameter) :
    (l.foldl (fun a s => applyOverride sch a (vals s)) acc).destinationScheme =
      acc.destinationScheme := by
  induction l generalizing acc with
  | nil => rfl
  | cons x xs ih =>
      have hstep : (applyOverride sch acc (vals x)).destinationScheme =
          acc.destinationScheme := by
        cases vals x with
        | none => rfl
        | some pv => simp [applyOverride, h]
      exact (ih (applyOverride sch acc (vals x))).trans hstep

theorem resolve_unfold (sch : ParameterSchema) (vals : ParameterScope → Option ParameterValue) :
    resolve sch vals =
      applyOverride sch
        (applyOverride sch
          (applyOverride sch
            (applyOverride sch
              (applyOverride sch (defaultResolution sch) (vals ParameterScope.organization))
              (vals ParameterScope.project))
            (vals ParameterScope.importJob))
          (vals ParameterScope.user))
        (vals ParameterScope.workspace) := by
  simp [resolve, scopeOrder, List.foldl]

/-- C6.  Parameter resolution starts from the schema's default
source/value and destination and folds matching values over the scopes in
increasing specificity order, honoring an override only when the schema's
`allowOverrideSource`/`allowOverrideDestination` flags permit it, with
the last applicable override (the workspace scope) winning; in the
scenario, schema `region` defaulting to `"us-east"` with
`allowOverrideSource = true`, overridden at workspace scope by
`"eu-west"`, resolves to `"eu-west"` routed to the schema's
environment-variable destination. -/
theorem parameter_resolution_orders_scopes_and_honors_flags :
    (∀ sch : ParameterSchema, resolve sch (fun _ => none) = defaultResolution sch) ∧
    (∀ (sch : ParameterSchema) (vals : ParameterScope → Option ParameterValue),
      sch.allowOverrideSource = false →
        (resolve sch vals).sourceValue = sch.defaultSourceValue ∧
        (resolve sch vals).sourceScheme = sch.defaultSourceScheme) ∧
    (∀ (sch : ParameterSchema) (vals : ParameterScope → Option ParameterValue),
      sch.allowOverrideDestination = false →
        (resolve sch vals).destinationScheme = sch.defaultDestinationScheme) ∧
    (∀ (sch : ParameterSchema) (vals : ParameterScope → Option ParameterValue)
        (v : ParameterValue),
      sch.allowOverrideSource = true → vals ParameterScope.workspace = some v →
        (resolve sch vals).sourceValue = v.sourceValue ∧
        (resolve sch vals).sourceScheme = v.sourceScheme) ∧
    (∀ (sch : ParameterSchema) (vals : ParameterScope → Option ParameterValue)
        (v : ParameterValue),
      sch.allowOverrideDestination = true → vals ParameterScope.workspace = some v →
        (resolve sch vals).destinationScheme = v.destinationScheme) ∧
    resolveFromList
      { name := "region", description := "", defaultSourceScheme := ParameterSourceScheme.data
        defaultSourceValue := "us-east", allowOverrideSource := true
        defaultDestinationScheme := ParameterDestinationScheme.environmentVariable
        allowOverrideDestination := false, redisplayValue := true, validationCondition := "" }
      [{ name := "region", scope := ParameterScope.workspace, scopeID := "ws1"
         sourceScheme := ParameterSourceScheme.data, sourceValue := "eu-west"
         destinationScheme := ParameterDestinationScheme.none }] =
      { sourceScheme := ParameterSourceScheme.data, sourceValue := "eu-west"
        destinationScheme := ParameterDestinationScheme.environmentVariable } := by
  refine ⟨?_, ?_, ?_, ?_, ?_, ?_⟩
  · intro sch
    simp [resolve, scopeOrder, List.foldl, applyOverride]
  · intro sch vals h
    exact foldl_source_of_no_override sch vals h scopeOrder (defaultResolution sch)
  · intro sch vals h
    exact foldl_dest_of_no_override sch vals h scopeOrder (defaultResolution sch)
  · intro sch vals v h hv
    rw [resolve_unfold, hv]
    simp [applyOverride, h]
  · intro sch vals v h hv
    rw [resolve_unfold, hv]
    simp [applyOverride, h]
  · rfl

/-- Witness for C6: the hypothesis-bearing conjuncts evaluated at a
concrete schema and value assignment. -/
theorem parameter_resolution_orders_scopes_and_honors_flags_witness :
    ((({ name := "p", description := "", defaultSourceScheme := ParameterSourceScheme.data
         defaultSourceValue := "d", allowOverrideSource := true
         defaultDestinationScheme := ParameterDestinationScheme.environmentVariable
         allowOverrideDestination := true, redisplayValue := true
         validationCondition := "" } : ParameterSchema).allowOverrideSource = true) ∧
      (fun s => if s = ParameterScope.workspace then
          some ({ name := "p", scope := ParameterScope.workspace, scopeID := "w"
                  sourceScheme := ParameterSourceScheme.data, sourceValue := "v"
                  destinationScheme := ParameterDestinationScheme.provisionerVariable }
            : ParameterValue)
        else none) ParameterScope.workspace =
        some { name := "p", scope := ParameterScope.workspace, scopeID := "w"
               sourceScheme := ParameterSourceScheme.data, sourceValue := "v"
               destinationScheme := ParameterDestinationScheme.provisionerVariable }) ∧
    (resolve
      { name := "p", description := "", defaultSourceScheme := ParameterSourceScheme.data
        defaultSourceValue := "d", allowOverrideSource := true
        defaultDestinationScheme := ParameterDestinationScheme.environmentVariable
        allowOverrideDestination := true, redisplayValue := true, validationCondition := "" }
      (fun s => if s = ParameterScope.workspace then
          some { name := "p", scope := ParameterScope.workspace, scopeID := "w"
                 sourceScheme := ParameterSourceScheme.data, sourceValue := "v"
                 destinationScheme := ParameterDestinationScheme.provisionerVariable }
        else none)).sourceValue = "v" :=
  ⟨⟨rfl, rfl⟩,
    (parameter_resolution_orders_scopes_and_honors_flags.2.2.2.1 _ _ _ rfl rfl).1⟩

/-- C7.  Parameter resolution is deterministic — `resolve` is a pure
function of the schema and value inputs — and for every parameter with an
applicable override at some scope, adding or changing overrides at any
strictly less specific scope never changes the resolved outcome. -/
theorem resolve_deterministic_and_shields_specific_overrides :
    (∀ (sch : ParameterSchema) (vals : ParameterScope → Option ParameterValue),
      resolve sch vals = resolve sch vals) ∧
    (∀ (sch : ParameterSchema) (vals₁ vals₂ : ParameterScope → Option ParameterValue)
        (s : ParameterScope) (v : ParameterValue),
      vals₁ s = some v →
      (∀ s', scopeRank s ≤ scopeRank s' → vals₁ s' = vals₂ s') →
      resolve sch vals₁ = resolve sch vals₂) := by
  refine ⟨fun sch vals => rfl, ?_⟩
  intro sch vals₁ vals₂ s v h1 h2
  have inv0 : ResInv sch (defaultResolution sch) := resInv_default sch
  cases s
  case organization =>
    have e1 := h2 ParameterScope.organization (by decide)
    have e2 := h2 ParameterScope.project (by decide)
    have e3 := h2 ParameterScope.importJob (by decide)
    have e4 := h2 ParameterScope.user (by decide)
    have e5 := h2 ParameterScope.workspace (by decide)
    rw [resolve_unfold, resolve_unfold, e1, e2, e3, e4, e5]
  case project =>
    have e2 := h2 ParameterScope.project (by decide)
    have e3 := h2 ParameterScope.importJob (by decide)
    have e4 := h2 ParameterScope.user (by decide)
    have e5 := h2 ParameterScope.workspace (by decide)
    rw [resolve_unfold, resolve_unfold, ← e2, ← e3, ← e4, ← e5]
    have hbase :
        applyOverride sch (applyOverride sch (defaultResolution sch)
            (vals₁ ParameterScope.organization)) (vals₁ ParameterScope.project) =
        applyOverride sch (applyOverride sch (defaultResolution sch)
            (vals₂ ParameterScope.organization)) (vals₁ ParameterScope.project) := by
      rw [h1]
      exact applyOverride_congr sch _ _ v
        (resInv_apply sch _ _ inv0) (resInv_apply sch _ _ inv0)
    rw [hbase]
  case importJob =>
    have e3 := h2 ParameterScope.importJob (by decide)
    have e4 := h2 ParameterScope.user (by decide)
    have e5 := h2 ParameterScope.workspace (by decide)
    rw [resolve_unfold, resolve_unfold, ← e3, ← e4, ← e5]
    have hbase :
        applyOverride sch (applyOverride sch (applyOverride sch (defaultResolution sch)
            (vals₁ ParameterScope.organization)) (vals₁ ParameterScope.project))
            (vals₁ ParameterScope.importJob) =
        applyOverride sch (applyOverride sch (applyOverride sch (defaultResolution sch)
            (vals₂ ParameterScope.organization)) (vals₂ ParameterScope.project))
            (vals₁ ParameterScope.importJob) := by
      rw [h1]
      exact applyOverride_congr sch _ _ v
        (resInv_apply sch _ _ (resInv_apply sch _ _ inv0))
        (resInv_apply sch _ _ (resInv_apply sch _ _ inv0))
    rw [hbase]
  case user =>
    have e4 := h2 ParameterScope.user (by decide)
    have e5 := h2 ParameterScope.workspace (by decide)
    rw [resolve_unfold, resolve_unfold, ← e4, ← e5]
    have hbase :
        applyOverride sch (applyOverride sch (applyOverride sch (applyOverride sch
            (defaultResolution sch) (vals₁ ParameterScope.organization))
            (vals₁ ParameterScope.project)) (vals₁ ParameterScope.importJob))
            (vals₁ ParameterScope.user) =
        applyOverride sch (applyOverride sch (applyOverride sch (applyOverride sch
            (defaultResolution sch) (vals₂ ParameterScope.organization))
            (vals₂ ParameterScope.project)) (vals₂ ParameterScope.importJob))
            (vals₁ ParameterScope.user) := by
      rw [h1]
      exact applyOverride_congr sch _ _ v
        (resInv_apply sch _ _ (resInv_apply sch _ _ (resInv_apply sch _ _ inv0)))
        (resInv_apply sch _ _ (resInv_apply sch _ _ (resInv_apply sch _ _ inv0)))
    rw [hbase]
  case workspace =>
    have e5 := h2 ParameterScope.workspace (by decide)
    rw [resolve_unfold, resolve_unfold, ← e5, h1]
    exact applyOverride_congr sch _ _ v
      (resInv_apply sch _ _ (resInv_apply sch _ _ (resInv_apply sch _ _
        (resInv_apply sch _ _ inv0))))
      (resInv_apply sch _ _ (resInv_apply sch _ _ (resInv_apply sch _ _
        (resInv_apply sch _ _ inv0))))

/-- Witness for C7: a user-scope override shields the outcome from a
change of the organization-scope value. -/
theorem resolve_deterministic_and_shields_specific_overrides_witness :
    ((fun s => if s = ParameterScope.user then
        some ({ name := "p", scope := ParameterScope.user, scopeID := "u"
                sourceScheme := ParameterSourceScheme.data, sourceValue := "uv"
                destinationScheme := ParameterDestinationScheme.environmentVariable }
          : ParameterValue)
      else if s = ParameterScope.organization then
        some { name := "p", scope := ParameterScope.organization, scopeID := "o"
               sourceScheme := ParameterSourceScheme.data, sourceValue := "ov"
               destinationScheme := ParameterDestinationScheme.environmentVariable }
      else none) ParameterScope.user =
      some { name := "p", scope := ParameterScope.user, scopeID := "u"
             sourceScheme := ParameterSourceScheme.data, sourceValue := "uv"
             destinationScheme := ParameterDestinationScheme.environmentVariable }) ∧
    resolve
      { name := "p", description := "", defaultSourceScheme := ParameterSourceScheme.data
        defaultSourceValue := "d", allowOverrideSource := true
        defaultDestinationScheme := ParameterDestinationScheme.environmentVariable
        allowOverrideDestination := true, redisplayValue := true, validationCondition := "" }
      (fun s => if s = ParameterScope.user then
          some { name := "p", scope := ParameterScope.user, scopeID := "u"
                 sourceScheme := ParameterSourceScheme.data, sourceValue := "uv"
                 destinationScheme := ParameterDestinationScheme.environmentVariable }
        else if s = ParameterScope.organization then
          some { name := "p", scope := ParameterScope.organization, scopeID := "o"
                 sourceScheme := ParameterSourceScheme.data, sourceValue := "ov"
                 destinationScheme := ParameterDestinationScheme.environmentVariable }
        else none) =
    resolve
      { name := "p", description := "", defaultSourceScheme := ParameterSourceScheme.data
        defaultSourceValue := "d", allowOverrideSource := true
        defaultDestinationScheme := ParameterDestinationScheme.environmentVariable
        allowOverrideDestination := true, redisplayValue := true, validationCondition := "" }
      (fun s => if s = ParameterScope.user then
          some { name := "p", scope := ParameterScope.user, scopeID := "u"
                 sourceScheme := ParameterSourceScheme.data, sourceValue := "uv"
                 destinationScheme := ParameterDestinationScheme.environmentVariable }
        else none) := by
  refine ⟨rfl, ?_⟩
  refine resolve_deterministic_and_shields_specific_overrides.2 _ _ _
    ParameterScope.user _ rfl ?_
  intro s' h
  cases s' <;> first
    | rfl
    | exact absurd h (by decide)

/- ### Theorems: API keys (`coderd/apikey.go`) -/

/-- C8.  `createAPIKey` rejects every requested scope other than the
empty string, `all`, and `application_connect`; an empty requested scope
resolves to `all`, so every key actually created has scope `all` or
`application_connect`; and `postToken` always adopts the request's scope
field, because its guard tests the just-assigned non-empty default
rather than the request value. -/
theorem createAPIKey_scope_gate_and_postToken_adopts_request_scope :
    (∀ (dv : DeploymentValues) (now : Int) (parsed : Option (List Nat))
        (p : CreateAPIKeyParams),
      p.scope ≠ "" → p.scope ≠ APIKeyScopeAll → p.scope ≠ APIKeyScopeApplicationConnect →
        createAPIKey dv now parsed p =
          Except.error ("invalid API key scope: " ++ p.scope)) ∧
    (∀ (dv : DeploymentValues) (now : Int) (parsed : Option (List Nat))
        (p : CreateAPIKeyParams) (k : InsertAPIKeyParams),
      p.scope = "" → createAPIKey dv now parsed p = Except.ok k →
        k.scope = APIKeyScopeAll) ∧
    (∀ (dv : DeploymentValues) (now : Int) (parsed : Option (List Nat))
        (p : CreateAPIKeyParams) (k : InsertAPIKeyParams),
      createAPIKey dv now parsed p = Except.ok k →
        k.scope = APIKeyScopeAll ∨ k.scope = APIKeyScopeApplicationConnect) ∧
    (∀ reqScope : String, postTokenScope reqScope = reqScope) := by
  refine ⟨?_, ?_, ?_, ?_⟩
  · intro dv now parsed p h1 h2 h3
    simp only [createAPIKey]
    split <;> (try split) <;> (try split) <;> simp_all
  · intro dv now parsed p k h hk
    simp only [createAPIKey, h] at hk
    split at hk <;> (try split at hk) <;> (try split at hk) <;>
      first
        | (cases hk; rfl)
        | (injection hk with hk; cases hk; rfl)
        | simp_all [APIKeyScopeAll]
  · intro dv now parsed p k hk
    simp only [createAPIKey] at hk
    split at hk <;> (try split at hk) <;> (try split at hk) <;> (try split at hk) <;>
      (try split at hk) <;>
      first
        | exact Except.noConfusion hk
        | (injection hk with hk
           cases hk
           assumption)
        | (cases hk
           assumption)
  · intro reqScope
    simp [postTokenScope, APIKeyScopeAll]

/-- Witness for C8: a request with scope `"admin"` is rejected, an empty
scope resolves to `all`, and `postToken` adopts the request's `"bogus"`
scope verbatim. -/
theorem createAPIKey_scope_gate_witness :
    (("admin" : String) ≠ "" ∧
      createAPIKey { maxTokenLifetime := 10 ^ 18, sessionDuration := 10 ^ 12 } 5 none
        { userID := 1, remoteAddr := "", loginType := "password", expiresAt := 7
          lifetimeSeconds := 0, scope := "admin", tokenName := "t" } =
        Except.error "invalid API key scope: admin") ∧
    postTokenScope "bogus" = "bogus" :=
  ⟨⟨by decide,
    createAPIKey_scope_gate_and_postToken_adopts_request_scope.1 _ _ _ _
      (by decide) (by decide) (by decide)⟩,
    createAPIKey_scope_gate_and_postToken_adopts_request_scope.2.2.2 "bogus"⟩

/-- C9.  In `postToken` a zero request lifetime defaults to 30 days
(`30 * 24` hours, in nanoseconds); `validateAPIKeyLifetime` rejects a
lifetime exactly when it is non-positive or exceeds the configured
`MaxTokenLifetime`; and whenever validation rejects, `postToken` answers
HTTP 400 (`badRequest`) and creates no API key. -/
theorem postToken_lifetime_default_and_validation :
    (∀ req : CreateTokenRequest, req.lifetime = 0 →
      postTokenLifetime req = 30 * 24 * 3600 * 1000000000) ∧
    (∀ req : CreateTokenRequest, req.lifetime ≠ 0 →
      postTokenLifetime req = req.lifetime) ∧
    (∀ (dv : DeploymentValues) (lifetime : Int),
      (validateAPIKeyLifetime dv lifetime).isSome ↔
        (lifetime ≤ 0 ∨ lifetime > dv.maxTokenLifetime)) ∧
    (∀ (dv : DeploymentValues) (now : Int) (userID : Nat) (randomName : String)
        (req : CreateTokenRequest),
      (validateAPIKeyLifetime dv (postTokenLifetime req)).isSome →
        postToken dv now userID randomName req = PostTokenResult.badRequest) := by
  refine ⟨?_, ?_, ?_, ?_⟩
  · intro req h
    simp [postTokenLifetime, h, defaultTokenLifetime]
  · intro req h
    simp [postTokenLifetime, h]
  · intro dv lifetime
    simp only [validateAPIKeyLifetime]
    split
    · rename_i h
      simp [h]
    · rename_i h
      split
      · rename_i h2
        simp [h2]
      · rename_i h2
        simp [h, h2]
  · intro dv now userID randomName req h
    simp only [postToken]
    cases hv : validateAPIKeyLifetime dv (postTokenLifetime req) with
    | some msg => rfl
    | none => rw [hv] at h; simp at h

/-- Witness for C9: a request lifetime of `-1` is rejected and `postToken`
answers `badRequest`. -/
theorem postToken_lifetime_validation_witness :
    (({ scope := "", lifetime := 5, tokenName := "t" } : CreateTokenRequest).lifetime ≠ 0 ∧
      postTokenLifetime { scope := "", lifetime := 5, tokenName := "t" } = 5) ∧
    ((validateAPIKeyLifetime { maxTokenLifetime := 100, sessionDuration := 10 }
        (postTokenLifetime { scope := "", lifetime := -1, tokenName := "t" })).isSome ∧
      postToken { maxTokenLifetime := 100, sessionDuration := 10 } 3 1 "rand"
        { scope := "", lifetime := -1, tokenName := "t" } = PostTokenResult.badRequest) :=
  ⟨⟨by decide, postToken_lifetime_default_and_validation.2.1 _ (by decide)⟩,
    ⟨by decide, postToken_lifetime_default_and_validation.2.2.2 _ _ _ _ _ (by decide)⟩⟩

/-- C10.  When the `RemoteAddr` handed to `createAPIKey` does not parse
as an IP address (`net.ParseIP` returns nil — e.g. for the empty string),
the call still creates the key, storing IP `0.0.0.0` (in its 16-byte
form) with a full-length mask and the valid flag set, for every request
whose scope passes the scope gate. -/
theorem createAPIKey_unparseable_remote_addr_stores_zero_ip :
    ∀ (dv : DeploymentValues) (now : Int) (p : CreateAPIKeyParams),
      (p.scope = "" ∨ p.scope = APIKeyScopeAll ∨ p.scope = APIKeyScopeApplicationConnect) →
      ∃ k, createAPIKey dv now none p = Except.ok k ∧
        k.ipBytes = netIPv4Zero ∧
        k.maskBytes = List.replicate 16 255 ∧
        k.ipValid = true := by
  intro dv now p hscope
  have hmask : (cidrMask (netIPv4Zero.length * 8) (netIPv4Zero.length * 8)).getD [] =
      List.replicate 16 255 := by decide
  simp only [createAPIKey]
  rcases hscope with h | h | h <;>
    (split <;> (try split) <;>
      simp [h, APIKeyScopeAll, APIKeyScopeApplicationConnect, hmask])

/-- Witness for C10: the empty remote address (which Go's `net.ParseIP`
rejects) still yields a created key with the zero IP and full mask. -/
theorem createAPIKey_unparseable_remote_addr_witness :
    ((("" : String) = "" ∨ ("" : String) = APIKeyScopeAll ∨
        ("" : String) = APIKeyScopeApplicationConnect) ∧
      ∃ k, createAPIKey { maxTokenLifetime := 100, sessionDuration := 10 } 3 none
          { userID := 1, remoteAddr := "", loginType := "password", expiresAt := 9
            lifetimeSeconds := 2, scope := "", tokenName := "t" } = Except.ok k ∧
        k.ipBytes = netIPv4Zero ∧
        k.maskBytes = List.replicate 16 255 ∧
        k.ipValid = true) :=
  ⟨Or.inl rfl,
    createAPIKey_unparseable_remote_addr_stores_zero_ip _ _ _ (Or.inl rfl)⟩

/- ### Theorems: job store helpers -/

theorem map_nodup_mem_inj {α β : Type} (f : α → β) (l : List α)
    (h : (l.map f).Nodup) {a b : α} (ha : a ∈ l) (hb : b ∈ l) (hf : f a = f b) :
    a = b := by
  induction l with
  | nil => cases ha
  | cons x xs ih =>
      simp only [List.map_cons, List.nodup_cons] at h
      rcases List.mem_cons.mp ha with rfl | ha' <;>
        rcases List.mem_cons.mp hb with rfl | hb'
      · rfl
      · exact absurd (hf ▸ List.mem_map_of_mem f hb') h.1
      · exact absurd (hf ▸ List.mem_map_of_mem f ha') h.1
      · exact ih h.2 ha' hb'

theorem jobTimesLE_spec {j : ProvisionerJob} {t : Nat} (h : jobTimesLE j t = true) :
    j.createdAt ≤ t ∧ (∀ u, j.startedAt = some u → u ≤ t) ∧
    (∀ u, j.cancelledAt = some u → u ≤ t) ∧ (∀ u, j.completedAt = some u → u ≤ t) := by
  simp only [jobTimesLE, Bool.and_eq_true, decide_eq_true_eq] at h
  obtain ⟨⟨⟨h1, h2⟩, h3⟩, h4⟩ := h
  refine ⟨h1, ?_, ?_, ?_⟩
  · intro u hu
    rw [hu] at h2
    exact Nat.le_of_ble_eq_true (by simpa using h2)
  · intro u hu
    rw [hu] at h3
    exact Nat.le_of_ble_eq_true (by simpa using h3)
  · intro u hu
    rw [hu] at h4
    exact Nat.le_of_ble_eq_true (by simpa using h4)

theorem storeTimesLE_spec {s : JobStore} {t : Nat} (h : storeTimesLE s t = true)
    {j : ProvisionerJob} (hj : j ∈ s.jobs) : jobTimesLE j t = true := by
  simp only [storeTimesLE, List.all_eq_true] at h
  exact h j hj

theorem isSome_false_eq_none {α : Type} {o : Option α} (h : o.isSome = false) : o = none := by
  cases o
  · rfl
  · simp at h

theorem isNone_false_isSome {α : Type} {o : Option α} (h : o.isNone = false) :
    o.isSome = true := by
  cases o
  · simp at h
  · rfl

theorem updateJob_ids (s : JobStore) (jobID : Nat) (f : ProvisionerJob → ProvisionerJob)
    (hf : ∀ x, x.id = jobID → (f x).id = x.id) :
    (updateJob s jobID f).jobs.map ProvisionerJob.id = s.jobs.map ProvisionerJob.id := by
  simp only [updateJob, List.map_map]
  refine List.map_congr_left ?_
  intro x hx
  by_cases hid : x.id = jobID
  · simp [hid, hf x hid]
  · simp [hid]

theorem updateJob_mem {s : JobStore} {jobID : Nat} {f : ProvisionerJob → ProvisionerJob}
    {x : ProvisionerJob} (hx : x ∈ (updateJob s jobID f).jobs) :
    ∃ y ∈ s.jobs, x = if y.id = jobID then f y else y := by
  simp only [updateJob, List.mem_map] at hx
  obtain ⟨y, hy, hxy⟩ := hx
  exact ⟨y, hy, hxy.symm⟩

theorem updateJob_mem_untouched {s : JobStore} {jobID : Nat}
    {f : ProvisionerJob → ProvisionerJob} {y : ProvisionerJob} (hy : y ∈ s.jobs)
    (hne : y.id ≠ jobID) : y ∈ (updateJob s jobID f).jobs := by
  simp only [updateJob, List.mem_map]
  exact ⟨y, hy, by simp [hne]⟩

theorem eligible_spec {acc : List ProvisionerJobType} {j : ProvisionerJob}
    (h : ProvisionerJob.eligible acc j = true) :
    j.workerID = none ∧ j.startedAt = none ∧ j.completedAt = none ∧ j.cancelledAt = none := by
  simp only [ProvisionerJob.eligible, ProvisionerJob.isPending, ProvisionerJob.isTerminal,
    Bool.and_eq_true, Bool.not_eq_true', Bool.or_eq_false_iff,
    Option.isNone_iff_eq_none] at h
  obtain ⟨⟨hw, hs, hc, hx⟩, _⟩ := h
  exact ⟨hw, hs, isSome_false_eq_none hc, isSome_false_eq_none hx⟩

theorem not_terminal_spec {j : ProvisionerJob} (h : j.isTerminal = false) :
    j.completedAt = none ∧ j.cancelledAt = none := by
  simp only [ProvisionerJob.isTerminal, Bool.or_eq_false_iff] at h
  exact ⟨isSome_false_eq_none h.1, isSome_false_eq_none h.2⟩

theorem storeWF_enqueue (s : JobStore) (jt : ProvisionerJobType) (payload storageRef : String)
    (now : Nat) (hwf : StoreWF s) :
    StoreWF (enqueueJob s jt payload storageRef now).1 := by
  obtain ⟨hnod, hlt, hjob⟩ := hwf
  unfold enqueueJob
  split
  · exact ⟨hnod, hlt, hjob⟩
  · refine ⟨?_, ?_, ?_⟩
    · simp only [List.map_append, List.map_cons, List.map_nil]
      rw [List.nodup_append]
      refine ⟨hnod, List.nodup_singleton _, ?_⟩
      intro a ha hb
      simp only [List.mem_singleton] at hb
      subst hb
      obtain ⟨y, hy, hyid⟩ := List.mem_map.mp ha
      exact absurd (hyid ▸ hlt y hy) (lt_irrefl _)
    · intro j hj
      rcases List.mem_append.mp hj with hj' | hj'
      · exact Nat.lt_succ_of_lt (hlt j hj')
      · simp only [List.mem_singleton] at hj'
        subst hj'
        exact Nat.lt_succ_self _
    · intro j hj
      rcases List.mem_append.mp hj with hj' | hj'
      · exact hjob j hj'
      · simp only [List.mem_singleton] at hj'
        subst hj'
        refine ⟨by simp, by simp, by simp, ?_, ?_, ?_, ?_⟩ <;> intro t <;> simp

theorem storeWF_claim (s : JobStore) (d : Nat) (acc : List ProvisionerJobType) (now : Nat)
    (hwf : StoreWF s) (ht : storeTimesLE s now = true) :
    StoreWF (claimJob s d acc now).1 := by
  obtain ⟨hnod, hlt, hjob⟩ := hwf
  unfold claimJob
  cases hfind : s.jobs.find? (ProvisionerJob.eligible acc) with
  | none => exact ⟨hnod, hlt, hjob⟩
  | some j =>
      have hjmem := List.mem_of_find?_eq_some hfind
      have hjel := List.find?_some hfind
      obtain ⟨hw, hs, hc, hx⟩ := eligible_spec hjel
      have hids : ((updateJob s j.id
          (fun _ => { j with startedAt := some now, workerID := some d })).jobs.map
          ProvisionerJob.id) = s.jobs.map ProvisionerJob.id :=
        updateJob_ids s j.id _ (fun x hx' => hx'.symm)
      refine ⟨?_, ?_, ?_⟩
      · rw [hids]
        exact hnod
      · intro x hxm
        obtain ⟨y, hy, hxy⟩ := updateJob_mem hxm
        by_cases hid : y.id = j.id
        · subst hxy
          simp only [hid, if_pos]
          exact hid ▸ hlt y hy
        · subst hxy
          simp only [hid, if_neg, if_false]
          exact hlt y hy
      · intro x hxm
        obtain ⟨y, hy, hxy⟩ := updateJob_mem hxm
        by_cases hid : y.id = j.id
        · subst hxy
          simp only [hid, if_pos]
          have hcr : j.createdAt ≤ now := (jobTimesLE_spec (storeTimesLE_spec ht hjmem)).1
          refine ⟨by simp, by simp [hc], by simp [hc], ?_, ?_, ?_, ?_⟩
          · intro t htt
            simp only at htt
            cases htt
            exact hcr
          · intro ts tc h1 h2
            simp [hc] at h2
          · intro ts tc h1 h2
            simp [hx] at h2
          · intro tc h2
            simp [hx] at h2
        · subst hxy
          simp only [hid, if_neg, if_false]
          exact hjob y hy

theorem storeWF_updateJob (s : JobStore) (jobID : Nat) (f : ProvisionerJob → ProvisionerJob)
    (hwf : StoreWF s) (hidf : ∀ x, (f x).id = x.id)
    (hjwf : ∀ y ∈ s.jobs, y.id = jobID → JobWF (f y)) :
    StoreWF (updateJob s jobID f) := by
  obtain ⟨hnod, hlt, hjob⟩ := hwf
  have hids := updateJob_ids s jobID f (fun x _ => hidf x)
  refine ⟨by rw [hids]; exact hnod, ?_, ?_⟩
  · intro x hxm
    obtain ⟨y, hy, hxy⟩ := updateJob_mem hxm
    subst hxy
    by_cases hid : y.id = jobID
    · simp only [hid, if_pos]
      rw [hidf y]
      exact hlt y hy
    · simp only [hid, if_neg, if_false]
      exact hlt y hy
  · intro x hxm
    obtain ⟨y, hy, hxy⟩ := updateJob_mem hxm
    subst hxy
    by_cases hid : y.id = jobID
    · simp only [hid, if_pos]
      exact hjwf y hy hid
    · simp only [hid, if_neg, if_false]
      exact hjob y hy

theorem storeWF_complete (s : JobStore) (jobID : Nat) (now : Nat)
    (hwf : StoreWF s) (ht : storeTimesLE s now = true) :
    StoreWF (completeJob s jobID now).1 := by
  cases hfind : findJob s jobID with
  | none =>
      simp only [completeJob, hfind]
      exact hwf
  | some j =>
      have hjmem := List.mem_of_find?_eq_some hfind
      have hjid : j.id = jobID := by simpa using List.find?_some hfind
      by_cases hguard : (j.isTerminal || j.workerID.isNone) = true
      · simp only [completeJob, hfind, hguard, if_true]
        exact hwf
      · have hguard' : (j.isTerminal || j.workerID.isNone) = false := by
          revert hguard
          cases j.isTerminal || j.workerID.isNone <;> simp
        rw [Bool.or_eq_false_iff] at hguard'
        obtain ⟨hterm, hwork⟩ := hguard'
        obtain ⟨hcn, hxn⟩ := not_terminal_spec hterm
        simp only [completeJob, hfind]
        rw [if_neg hguard]
        refine storeWF_updateJob s jobID _ hwf (fun x => rfl) ?_
        intro y hy hyid
        have hyj : y = j := map_nodup_mem_inj _ _ hwf.1 hy hjmem (hyid.trans hjid.symm)
        subst hyj
        obtain ⟨w1, w2, w3, w4, w5, w6, w7⟩ := hwf.2.2 y hy
        have hts := jobTimesLE_spec (storeTimesLE_spec ht hy)
        refine ⟨?_, ?_, ?_, ?_, ?_, ?_, ?_⟩
        · intro hws
          exact w1 hws
        · intro _
          exact isNone_false_isSome hwork
        · intro hcontra
          simp [hxn] at hcontra
        · intro t htt
          exact w4 t htt
        · intro ts tc h1 h2
          simp only [Option.some.injEq] at h2
          subst h2
          exact hts.2.1 ts h1
        · intro ts tc h1 h2
          simp [hxn] at h2
        · intro tc h2
          simp [hxn] at h2

theorem storeWF_fail (s : JobStore) (jobID : Nat) (msg : String) (now : Nat)
    (hwf : StoreWF s) (ht : storeTimesLE s now = true) :
    StoreWF (failJob s jobID msg now).1 := by
  cases hfind : findJob s jobID with
  | none =>
      simp only [failJob, hfind]
      exact hwf
  | some j =>
      have hjmem := List.mem_of_find?_eq_some hfind
      have hjid : j.id = jobID := by simpa using List.find?_some hfind
      by_cases hguard : (j.isTerminal || j.workerID.isNone) = true
      · simp only [failJob, hfind, hguard, if_true]
        exact hwf
      · have hguard' : (j.isTerminal || j.workerID.isNone) = false := by
          revert hguard
          cases j.isTerminal || j.workerID.isNone <;> simp
        rw [Bool.or_eq_false_iff] at hguard'
        obtain ⟨hterm, hwork⟩ := hguard'
        obtain ⟨hcn, hxn⟩ := not_terminal_spec hterm
        simp only [failJob, hfind]
        rw [if_neg hguard]
        refine storeWF_updateJob s jobID _ hwf (fun x => rfl) ?_
        intro y hy hyid
        have hyj : y = j := map_nodup_mem_inj _ _ hwf.1 hy hjmem (hyid.trans hjid.symm)
        subst hyj
        obtain ⟨w1, w2, w3, w4, w5, w6, w7⟩ := hwf.2.2 y hy
        have hts := jobTimesLE_spec (storeTimesLE_spec ht hy)
        refine ⟨?_, ?_, ?_, ?_, ?_, ?_, ?_⟩
        · intro hws
          exact w1 hws
        · intro _
          exact isNone_false_isSome hwork
        · intro hcontra
          simp [hxn] at hcontra
        · intro t htt
          exact w4 t htt
        · intro ts tc h1 h2
          simp only [Option.some.injEq] at h2
          subst h2
          exact hts.2.1 ts h1
        · intro ts tc h1 h2
          simp [hxn] at h2
        · intro tc h2
          simp [hxn] at h2

theorem storeWF_cancel (s : JobStore) (jobID : Nat) (now : Nat)
    (hwf : StoreWF s) (ht : storeTimesLE s now = true) :
    StoreWF (cancelJob s jobID now).1 := by
  cases hfind : findJob s jobID with
  | none =>
      simp only [cancelJob, hfind]
      exact hwf
  | some j =>
      have hjmem := List.mem_of_find?_eq_some hfind
      have hjid : j.id = jobID := by simpa using List.find?_some hfind
      by_cases hguard : j.isTerminal = true
      · simp only [cancelJob, hfind, hguard, if_true]
        exact hwf
      · have hterm : j.isTerminal = false := by
          revert hguard
          cases j.isTerminal <;> simp
        obtain ⟨hcn, hxn⟩ := not_terminal_spec hterm
        simp only [cancelJob, hfind]
        rw [if_neg hguard]
        refine storeWF_updateJob s jobID _ hwf (fun x => rfl) ?_
        intro y hy hyid
        have hyj : y = j := map_nodup_mem_inj _ _ hwf.1 hy hjmem (hyid.trans hjid.symm)
        subst hyj
        obtain ⟨w1, w2, w3, w4, w5, w6, w7⟩ := hwf.2.2 y hy
        have hts := jobTimesLE_spec (storeTimesLE_spec ht hy)
        refine ⟨?_, ?_, ?_, ?_, ?_, ?_, ?_⟩
        · intro hws
          exact w1 hws
        · intro hcontra
          simp [hcn] at hcontra
        · intro hcontra
          obtain ⟨hc1, _⟩ := hcontra
          simp [hcn] at hc1
        · intro t htt
          exact w4 t htt
        · intro ts tc h1 h2
          simp [hcn] at h2
        · intro ts tc h1 h2
          simp only [Option.some.injEq] at h2
          subst h2
          exact hts.2.1 ts h1
        · intro tc h2
          simp only [Option.some.injEq] at h2
          subst h2
          exact hts.1

theorem storeWF_step (s : JobStore) (op : JobOp) (now : Nat)
    (hwf : StoreWF s) (ht : storeTimesLE s now = true) :
    StoreWF (applyJobOp s op now) := by
  cases op with
  | enqueue jt p r => exact storeWF_enqueue s jt p r now hwf
  | claim d acc => exact storeWF_claim s d acc now hwf ht
  | complete jobID => exact storeWF_complete s jobID now hwf ht
  | fail jobID msg => exact storeWF_fail s jobID msg now hwf ht
  | cancel jobID => exact storeWF_cancel s jobID now hwf ht

theorem reachable_storeWF {s : JobStore} (h : ReachableStore s) : StoreWF s := by
  induction h with
  | init =>
      refine ⟨?_, ?_, ?_⟩ <;> simp [emptyJobStore]
  | step op now _ ht ih => exact storeWF_step _ op now ih ht

theorem jobWF_phase {j : ProvisionerJob} (hwf : JobWF j) : jobPhaseCount j = 1 := by
  obtain ⟨w1, w2, w3, _⟩ := hwf
  cases hs : j.startedAt <;> cases hc : j.cancelledAt <;> cases hx : j.completedAt <;>
    simp [jobPhaseCount, hs, hc, hx] <;>
    exact absurd ⟨by simp [hx], by simp [hc]⟩ w3

theorem updateJob_frozen (s : JobStore) (hwf : StoreWF s) {j : ProvisionerJob}
    (hj : j ∈ s.jobs) (targetID : Nat) (f : ProvisionerJob → ProvisionerJob)
    (hne : j.id ≠ targetID) (hidf : ∀ x, x.id = targetID → (f x).id = x.id) :
    j ∈ (updateJob s targetID f).jobs ∧
    ∀ x ∈ (updateJob s targetID f).jobs, x.id = j.id → x = j := by
  constructor
  · exact updateJob_mem_untouched hj hne
  · intro x hx hxid
    obtain ⟨y, hy, hxy⟩ := updateJob_mem hx
    by_cases hid : y.id = targetID
    · rw [hxy, if_pos hid] at hxid
      rw [hidf y hid] at hxid
      exact absurd (hxid.symm.trans hid) hne
    · rw [hxy, if_neg hid] at hxid ⊢
      exact map_nodup_mem_inj _ _ hwf.1 hy hj hxid

theorem unchanged_unique (s : JobStore) (hwf : StoreWF s) {j : ProvisionerJob}
    (hj : j ∈ s.jobs) :
    j ∈ s.jobs ∧ ∀ x ∈ s.jobs, x.id = j.id → x = j :=
  ⟨hj, fun x hx hxid => map_nodup_mem_inj _ _ hwf.1 hx hj hxid⟩

theorem terminal_frozen (s : JobStore) (hwf : StoreWF s) {j : ProvisionerJob}
    (hj : j ∈ s.jobs) (hterm : j.isTerminal = true) (op : JobOp) (now : Nat) :
    j ∈ (applyJobOp s op now).jobs ∧
    ∀ x ∈ (applyJobOp s op now).jobs, x.id = j.id → x = j := by
  cases op with
  | enqueue jt p r =>
      simp only [applyJobOp, enqueueJob]
      split
      · exact unchanged_unique s hwf hj
      · constructor
        · exact List.mem_append_left _ hj
        · intro x hx hxid
          rcases List.mem_append.mp hx with hx' | hx'
          · exact map_nodup_mem_inj _ _ hwf.1 hx' hj hxid
          · simp only [List.mem_singleton] at hx'
            subst hx'
            exact absurd (hxid ▸ hwf.2.1 j hj) (lt_irrefl _)
  | claim d acc =>
      simp only [applyJobOp, claimJob]
      cases hfind : s.jobs.find? (ProvisionerJob.eligible acc) with
      | none => exact unchanged_unique s hwf hj
      | some jj =>
          have hjjmem := List.mem_of_find?_eq_some hfind
          have hjjel := List.find?_some hfind
          obtain ⟨_, _, hc, hx⟩ := eligible_spec hjjel
          have hne : j.id ≠ jj.id := by
            intro heq
            have : j = jj := map_nodup_mem_inj _ _ hwf.1 hj hjjmem heq
            subst this
            simp [ProvisionerJob.isTerminal, hc, hx] at hterm
          exact updateJob_frozen s hwf hj jj.id _ hne (fun x hx' => hx'.symm)
  | complete jobID =>
      cases hfind : findJob s jobID with
      | none =>
          simp only [applyJobOp, completeJob, hfind]
          exact unchanged_unique s hwf hj
      | some jj =>
          have hjjmem := List.mem_of_find?_eq_some hfind
          have hjjid : jj.id = jobID := by simpa using List.find?_some hfind
          by_cases hguard : (jj.isTerminal || jj.workerID.isNone) = true
          · simp only [applyJobOp, completeJob, hfind, hguard, if_true]
            exact unchanged_unique s hwf hj
          · have hne : j.id ≠ jobID := by
              intro heq
              have hjeq : j = jj := map_nodup_mem_inj _ _ hwf.1 hj hjjmem (heq.trans hjjid.symm)
              subst hjeq
              exact hguard (by simp [hterm])
            simp only [applyJobOp, completeJob, hfind]
            rw [if_neg hguard]
            exact updateJob_frozen s hwf hj jobID _ hne (fun x _ => rfl)
  | fail jobID msg =>
      cases hfind : findJob s jobID with
      | none =>
          simp only [applyJobOp, failJob, hfind]
          exact unchanged_unique s hwf hj
      | some jj =>
          have hjjmem := List.mem_of_find?_eq_some hfind
          have hjjid : jj.id = jobID := by simpa using List.find?_some hfind
          by_cases hguard : (jj.isTerminal || jj.workerID.isNone) = true
          · simp only [applyJobOp, failJob, hfind, hguard, if_true]
            exact unchanged_unique s hwf hj
          · have hne : j.id ≠ jobID := by
              intro heq
              have hjeq : j = jj := map_nodup_mem_inj _ _ hwf.1 hj hjjmem (heq.trans hjjid.symm)
              subst hjeq
              exact hguard (by simp [hterm])
            simp only [applyJobOp, failJob, hfind]
            rw [if_neg hguard]
            exact updateJob_frozen s hwf hj jobID _ hne (fun x _ => rfl)
  | cancel jobID =>
      cases hfind : findJob s jobID with
      | none =>
          simp only [applyJobOp, cancelJob, hfind]
          exact unchanged_unique s hwf hj
      | some jj =>
          have hjjmem := List.mem_of_find?_eq_some hfind
          have hjjid : jj.id = jobID := by simpa using List.find?_some hfind
          by_cases hguard : jj.isTerminal = true
          · simp only [applyJobOp, cancelJob, hfind, hguard, if_true]
            exact unchanged_unique s hwf hj
          · have hne : j.id ≠ jobID := by
              intro heq
              have hjeq : j = jj := map_nodup_mem_inj _ _ hwf.1 hj hjjmem (heq.trans hjjid.symm)
              subst hjeq
              exact hguard (hterm)
            simp only [applyJobOp, cancelJob, hfind]
            rw [if_neg hguard]
            exact updateJob_frozen s hwf hj jobID _ hne (fun x _ => rfl)

/-- C2.  In every reachable job store, every job populates exactly one of
the four timestamp configurations {never started, started, cancelled,
completed}; `startedAt ≤ completedAt` and `startedAt ≤ cancelledAt`
whenever both are set; a job with a worker assigned has a start
timestamp; and once a job is terminal no operation mutates any of its
fields — the record survives every further operation unchanged. -/
theorem job_timestamp_invariants :
    ∀ s : JobStore, ReachableStore s → ∀ j ∈ s.jobs,
      jobPhaseCount j = 1 ∧
      (∀ ts tc, j.startedAt = some ts → j.completedAt = some tc → ts ≤ tc) ∧
      (∀ ts tc, j.startedAt = some ts → j.cancelledAt = some tc → ts ≤ tc) ∧
      (j.workerID.isSome = true → j.startedAt.isSome = true) ∧
      (j.isTerminal = true → ∀ (op : JobOp) (now : Nat),
        j ∈ (applyJobOp s op now).jobs ∧
        ∀ x ∈ (applyJobOp s op now).jobs, x.id = j.id → x = j) := by
  intro s hs j hj
  have hwf := reachable_storeWF hs
  obtain ⟨w1, w2, w3, w4, w5, w6, w7⟩ := hwf.2.2 j hj
  exact ⟨jobWF_phase (hwf.2.2 j hj), w5, w6, w1,
    fun hterm op now => terminal_frozen s hwf hj hterm op now⟩

/-- Witness for C2: the store holding one freshly enqueued job is
reachable, contains that job, and the job sits in exactly one phase. -/
theorem job_timestamp_invariants_witness :
    ReachableStore (applyJobOp emptyJobStore
      (JobOp.enqueue ProvisionerJobType.workspaceProvision "payload" "file") 1) ∧
    ({ id := 0, createdAt := 1, startedAt := none, cancelledAt := none, completedAt := none,
       jobError := none, jobType := ProvisionerJobType.workspaceProvision, input := "payload",
       storageSource := "file", workerID := none } : ProvisionerJob) ∈
      (applyJobOp emptyJobStore
        (JobOp.enqueue ProvisionerJobType.workspaceProvision "payload" "file") 1).jobs ∧
    jobPhaseCount
      { id := 0, createdAt := 1, startedAt := none, cancelledAt := none, completedAt := none,
        jobError := none, jobType := ProvisionerJobType.workspaceProvision, input := "payload",
        storageSource := "file", workerID := none } = 1 := by
  have hr : ReachableStore (applyJobOp emptyJobStore
      (JobOp.enqueue ProvisionerJobType.workspaceProvision "payload" "file") 1) :=
    ReachableStore.step _ 1 ReachableStore.init (by decide)
  have hm : ({ id := 0, createdAt := 1, startedAt := none, cancelledAt := none,
               completedAt := none, jobError := none,
               jobType := ProvisionerJobType.workspaceProvision, input := "payload",
               storageSource := "file", workerID := none } : ProvisionerJob) ∈
      (applyJobOp emptyJobStore
        (JobOp.enqueue ProvisionerJobType.workspaceProvision "payload" "file") 1).jobs := by
    decide
  exact ⟨hr, hm, (job_timestamp_invariants _ hr _ hm).1⟩

/-- C5.  `Cancel` on a job already in a terminal state returns
`AlreadyTerminal` and leaves the store (hence every field of the job)
unchanged, while `Complete` and `Fail` on a terminal or unclaimed job
fail with `InvalidState` and also leave the store unchanged. -/
theorem terminal_job_operations_are_rejected :
    (∀ (s : JobStore) (jobID : Nat) (j : ProvisionerJob) (now : Nat),
      findJob s jobID = some j → j.isTerminal = true →
        cancelJob s jobID now = (s, Except.error JobStoreError.alreadyTerminal)) ∧
    (∀ (s : JobStore) (jobID : Nat) (j : ProvisionerJob) (now : Nat),
      findJob s jobID = some j → (j.isTerminal = true ∨ j.workerID = none) →
        completeJob s jobID now = (s, Except.error JobStoreError.invalidState)) ∧
    (∀ (s : JobStore) (jobID : Nat) (j : ProvisionerJob) (msg : String) (now : Nat),
      findJob s jobID = some j → (j.isTerminal = true ∨ j.workerID = none) →
        failJob s jobID msg now = (s, Except.error JobStoreError.invalidState)) := by
  refine ⟨?_, ?_, ?_⟩
  · intro s jobID j now hfind hterm
    simp [cancelJob, hfind, hterm]
  · intro s jobID j now hfind hguard
    have hcond : (j.isTerminal || j.workerID.isNone) = true := by
      rcases hguard with h | h <;> simp [h]
    simp [completeJob, hfind, hcond]
  · intro s jobID j msg now hfind hguard
    have hcond : (j.isTerminal || j.workerID.isNone) = true := by
      rcases hguard with h | h <;> simp [h]
    simp [failJob, hfind, hcond]

/-- Witness for C5: cancelling an already-completed job is rejected as
`AlreadyTerminal` with the store unchanged. -/
theorem terminal_job_operations_are_rejected_witness :
    (findJob ({ jobs := [({ id := 0, createdAt := 0, startedAt := some 1, cancelledAt := none, completedAt := some 2, jobError := none, jobType := ProvisionerJobType.workspaceProvision, input := "p", storageSource := "f", workerID := some 7 } : ProvisionerJob)], nextID := 1 } : JobStore) 0 = some ({ id := 0, createdAt := 0, startedAt := some 1, cancelledAt := none, completedAt := some 2, jobError := none, jobType := ProvisionerJobType.workspaceProvision, input := "p", storageSource := "f", workerID := some 7 } : ProvisionerJob) ∧
      ProvisionerJob.isTerminal ({ id := 0, createdAt := 0, startedAt := some 1, cancelledAt := none, completedAt := some 2, jobError := none, jobType := ProvisionerJobType.workspaceProvision, input := "p", storageSource := "f", workerID := some 7 } : ProvisionerJob) = true) ∧
    cancelJob ({ jobs := [({ id := 0, createdAt := 0, startedAt := some 1, cancelledAt := none, completedAt := some 2, jobError := none, jobType := ProvisionerJobType.workspaceProvision, input := "p", storageSource := "f", workerID := some 7 } : ProvisionerJob)], nextID := 1 } : JobStore) 0 5 = (({ jobs := [({ id := 0, createdAt := 0, startedAt := some 1, cancelledAt := none, completedAt := some 2, jobError := none, jobType := ProvisionerJobType.workspaceProvision, input := "p", storageSource := "f", workerID := some 7 } : ProvisionerJob)], nextID := 1 } : JobStore), Except.error JobStoreError.alreadyTerminal) :=
 by
  refine ⟨⟨by decide, by decide⟩, ?_⟩
  exact terminal_job_operations_are_rejected.1 ({ jobs := [({ id := 0, createdAt := 0, startedAt := some 1, cancelledAt := none, completedAt := some 2, jobError := none, jobType := ProvisionerJobType.workspaceProvision, input := "p", storageSource := "f", workerID := some 7 } : ProvisionerJob)], nextID := 1 } : JobStore) 0 ({ id := 0, createdAt := 0, startedAt := some 1, cancelledAt := none, completedAt := some 2, jobError := none, jobType := ProvisionerJobType.workspaceProvision, input := "p", storageSource := "f", workerID := some 7 } : ProvisionerJob) 5 (by decide) (by decide)

theorem find?_unique {α : Type} (p : α → Bool) (l : List α) (j : α)
    (hj : j ∈ l) (hpj : p j = true) (huniq : ∀ x ∈ l, p x = true → x = j) :
    l.find? p = some j := by
  induction l with
  | nil => cases hj
  | cons x xs ih =>
      by_cases hx : p x = true
      · have : x = j := huniq x (List.mem_cons_self x xs) hx
        subst this
        simp [List.find?, hx]
      · have hxf : p x = false := by
          revert hx
          cases p x <;> simp
        have hjx : j ∈ xs := by
          rcases List.mem_cons.mp hj with rfl | h
          · exact absurd hpj hx
          · exact h
        simp only [List.find?, hxf]
        exact ih hjx (fun y hy hpy => huniq y (List.mem_cons_of_mem x hy) hpy)

theorem updateJob_mem_self {s : JobStore} {targetID : Nat}
    {f : ProvisionerJob → ProvisionerJob} {y : ProvisionerJob} (hy : y ∈ s.jobs)
    (hid : y.id = targetID) : f y ∈ (updateJob s targetID f).jobs := by
  simp only [updateJob, List.mem_map]
  exact ⟨y, hy, by simp [hid]⟩

theorem claimsOf_replicate_none (n : Nat) (jid : Nat) :
    claimsOf (List.replicate n none) jid = 0 := by
  induction n with
  | zero => rfl
  | succ m ih => simpa [claimsOf, List.replicate_succ, List.countP_cons] using ih

theorem runClaims_all_ineligible (s : JobStore) (now : Nat)
    (cs : List (Nat × List ProvisionerJobType))
    (h : ∀ c ∈ cs, ∀ x ∈ s.jobs, ProvisionerJob.eligible c.2 x = false) :
    runClaims s now cs = (s, List.replicate cs.length none) := by
  induction cs with
  | nil => rfl
  | cons c cs' ih =>
      have hfind : s.jobs.find? (ProvisionerJob.eligible c.2) = none := by
        rw [List.find?_eq_none]
        intro x hx
        simp [h c (List.mem_cons_self c cs') x hx]
      simp only [runClaims, claimJob, hfind]
      rw [ih (fun c' hc' x hx => h c' (List.mem_cons_of_mem c hc') x hx)]
      simp [List.replicate_succ]

theorem runClaims_no_reclaim (now : Nat) (calls : List (Nat × List ProvisionerJobType)) :
    ∀ (s : JobStore) (jid : Nat),
      (s.jobs.map ProvisionerJob.id).Nodup →
      (∃ x ∈ s.jobs, x.id = jid ∧ x.workerID.isSome = true) →
      claimsOf (runClaims s now calls).2 jid = 0 := by
  induction calls with
  | nil => intro s jid _ _; rfl
  | cons c cs ih =>
      intro s jid hnod hclaimed
      obtain ⟨x, hx, hxid, hxw⟩ := hclaimed
      cases hfind : s.jobs.find? (ProvisionerJob.eligible c.2) with
      | none =>
          simp only [runClaims, claimJob, hfind, claimsOf, List.countP_cons]
          have := ih s jid hnod ⟨x, hx, hxid, hxw⟩
          simpa [claimsOf] using this
      | some j =>
          have hjmem := List.mem_of_find?_eq_some hfind
          obtain ⟨hw, _, _, _⟩ := eligible_spec (List.find?_some hfind)
          have hne : j.id ≠ jid := by
            intro heq
            have : j = x := map_nodup_mem_inj _ _ hnod hjmem hx (heq.trans hxid.symm)
            subst this
            simp [hw] at hxw
          have hnod' : ((updateJob s j.id
              (fun _ => { j with startedAt := some now, workerID := some c.1 })).jobs.map
              ProvisionerJob.id).Nodup := by
            rw [updateJob_ids s j.id
              (fun _ => { j with startedAt := some now, workerID := some c.1 })
              (fun y hy => hy.symm)]
            exact hnod
          have hclaimed' : ∃ y ∈ (updateJob s j.id
              (fun _ => { j with startedAt := some now, workerID := some c.1 })).jobs,
              y.id = jid ∧ y.workerID.isSome = true :=
            ⟨x, updateJob_mem_untouched hx (fun h => hne (h.symm.trans hxid)), hxid, hxw⟩
          simp only [runClaims, claimJob, hfind, claimsOf, List.countP_cons]
          have := ih _ jid hnod' hclaimed'
          simp only [claimsOf] at this
          simp [this, hne]

theorem runClaims_at_most_once (now : Nat) (calls : List (Nat × List ProvisionerJobType)) :
    ∀ (s : JobStore) (jid : Nat),
      (s.jobs.map ProvisionerJob.id).Nodup →
      claimsOf (runClaims s now calls).2 jid ≤ 1 := by
  induction calls with
  | nil => intro s jid _; simp [runClaims, claimsOf]
  | cons c cs ih =>
      intro s jid hnod
      cases hfind : s.jobs.find? (ProvisionerJob.eligible c.2) with
      | none =>
          simp only [runClaims, claimJob, hfind, claimsOf, List.countP_cons]
          simpa [claimsOf] using ih s jid hnod
      | some j =>
          have hjmem := List.mem_of_find?_eq_some hfind
          have hnod' : ((updateJob s j.id
              (fun _ => { j with startedAt := some now, workerID := some c.1 })).jobs.map
              ProvisionerJob.id).Nodup := by
            rw [updateJob_ids s j.id
              (fun _ => { j with startedAt := some now, workerID := some c.1 })
              (fun y hy => hy.symm)]
            exact hnod
          by_cases hjid : j.id = jid
          · have hmem' : ({ j with startedAt := some now, workerID := some c.1 }
                : ProvisionerJob) ∈ (updateJob s j.id
                (fun _ => { j with startedAt := some now, workerID := some c.1 })).jobs :=
              updateJob_mem_self hjmem rfl
            have hzero := runClaims_no_reclaim now cs _ jid hnod'
              ⟨_, hmem', hjid, rfl⟩
            simp only [runClaims, claimJob, hfind, claimsOf, List.countP_cons]
            simp only [claimsOf] at hzero
            rw [hzero]
            simp [hjid]
          · simp only [runClaims, claimJob, hfind, claimsOf, List.countP_cons]
            have := ih _ jid hnod'
            simp only [claimsOf] at this
            simp [hjid, this]

/-- C1.  Claims are mutually exclusive: across any sequence of `Claim`
calls (any interleaving of concurrent callers, since each claim is one
atomic conditional update), at most one call ever claims a given job; and
when the calls all target the same pending job (it is the unique job
eligible for each caller), the first call succeeds — setting `workerID`
and `startedAt` — and every other call finds no job, so exactly one call
claims it. -/
theorem claim_is_exclusive :
    (∀ (s : JobStore) (now : Nat) (calls : List (Nat × List ProvisionerJobType)) (jid : Nat),
      ReachableStore s →
      claimsOf (runClaims s now calls).2 jid ≤ 1) ∧
    (∀ (s : JobStore) (now : Nat) (c : Nat × List ProvisionerJobType)
        (cs : List (Nat × List ProvisionerJobType)) (j : ProvisionerJob),
      ReachableStore s → j ∈ s.jobs →
      (∀ c' ∈ c :: cs, ∀ x ∈ s.jobs, (ProvisionerJob.eligible c'.2 x = true ↔ x = j)) →
      (runClaims s now (c :: cs)).2 =
        some { j with startedAt := some now, workerID := some c.1 } ::
          List.replicate cs.length none ∧
      claimsOf (runClaims s now (c :: cs)).2 j.id = 1) := by
  constructor
  · intro s now calls jid hs
    exact runClaims_at_most_once now calls s jid (reachable_storeWF hs).1
  · intro s now c cs j hs hj honly
    have hnod := (reachable_storeWF hs).1
    have hel : ProvisionerJob.eligible c.2 j = true :=
      (honly c (List.mem_cons_self c cs) j hj).mpr rfl
    have hfind : s.jobs.find? (ProvisionerJob.eligible c.2) = some j :=
      find?_unique _ _ j hj hel
        (fun x hx hpx => (honly c (List.mem_cons_self c cs) x hx).mp hpx)
    have hrest : runClaims (updateJob s j.id
        (fun _ => { j with startedAt := some now, workerID := some c.1 })) now cs =
        (updateJob s j.id (fun _ => { j with startedAt := some now, workerID := some c.1 }),
          List.replicate cs.length none) := by
      apply runClaims_all_ineligible
      intro c' hc' x hx
      obtain ⟨y, hy, hxy⟩ := updateJob_mem hx
      by_cases hid : y.id = j.id
      · rw [hxy, if_pos hid]
        simp [ProvisionerJob.eligible]
      · rw [hxy, if_neg hid]
        have hyne : y ≠ j := fun h => hid (h ▸ rfl)
        have hiff := honly c' (List.mem_cons_of_mem c hc') y hy
        cases he : ProvisionerJob.eligible c'.2 y
        · rfl
        · exact absurd (hiff.mp he) hyne
    have hres : (runClaims s now (c :: cs)).2 =
        some { j with startedAt := some now, workerID := some c.1 } ::
          List.replicate cs.length none := by
      simp only [runClaims, claimJob, hfind]
      rw [hrest]
    refine ⟨hres, ?_⟩
    rw [hres]
    have hz := claimsOf_replicate_none cs.length j.id
    simp only [claimsOf] at hz
    simp [claimsOf, List.countP_cons, hz]

/-- Witness for C1: two daemons race for the single pending job; the
first claims it, the second finds nothing. -/
theorem claim_is_exclusive_witness :
    ReachableStore (applyJobOp emptyJobStore
      (JobOp.enqueue ProvisionerJobType.workspaceProvision "payload" "file") 1) ∧
    ({ id := 0, createdAt := 1, startedAt := none, cancelledAt := none, completedAt := none,
       jobError := none, jobType := ProvisionerJobType.workspaceProvision, input := "payload",
       storageSource := "file", workerID := none } : ProvisionerJob) ∈
      (applyJobOp emptyJobStore
        (JobOp.enqueue ProvisionerJobType.workspaceProvision "payload" "file") 1).jobs ∧
    (runClaims (applyJobOp emptyJobStore
        (JobOp.enqueue ProvisionerJobType.workspaceProvision "payload" "file") 1) 2
      [(5, [ProvisionerJobType.workspaceProvision]),
       (6, [ProvisionerJobType.workspaceProvision])]).2 =
      some ({ id := 0, createdAt := 1, startedAt := some 2, cancelledAt := none,
              completedAt := none, jobError := none,
              jobType := ProvisionerJobType.workspaceProvision, input := "payload",
              storageSource := "file", workerID := some 5 } : ProvisionerJob) ::
        List.replicate 1 none := by
  have hr : ReachableStore (applyJobOp emptyJobStore
      (JobOp.enqueue ProvisionerJobType.workspaceProvision "payload" "file") 1) :=
    ReachableStore.step _ 1 ReachableStore.init (by decide)
  have hm : ({ id := 0, createdAt := 1, startedAt := none, cancelledAt := none,
               completedAt := none, jobError := none,
               jobType := ProvisionerJobType.workspaceProvision, input := "payload",
               storageSource := "file", workerID := none } : ProvisionerJob) ∈
      (applyJobOp emptyJobStore
        (JobOp.enqueue ProvisionerJobType.workspaceProvision "payload" "file") 1).jobs := by
    decide
  refine ⟨hr, hm, ?_⟩
  have honly : ∀ c' ∈ [(5, [ProvisionerJobType.workspaceProvision]),
      (6, [ProvisionerJobType.workspaceProvision])],
      ∀ x ∈ (applyJobOp emptyJobStore
        (JobOp.enqueue ProvisionerJobType.workspaceProvision "payload" "file") 1).jobs,
      (ProvisionerJob.eligible c'.2 x = true ↔
        x = { id := 0, createdAt := 1, startedAt := none, cancelledAt := none,
              completedAt := none, jobError := none,
              jobType := ProvisionerJobType.workspaceProvision, input := "payload",
              storageSource := "file", workerID := none }) := by
    decide
  exact (claim_is_exclusive.2 _ 2 (5, [ProvisionerJobType.workspaceProvision])
    [(6, [ProvisionerJobType.workspaceProvision])] _ hr hm honly).1

/- ### Theorems: history reconstruction on well-formed chains -/

theorem chain_tail_has_pred {R : WorkspaceHistory → WorkspaceHistory → Prop}
    (x : WorkspaceHistory) (xs : List WorkspaceHistory)
    (h : List.Chain' R (x :: xs)) : ∀ b ∈ xs, ∃ a, R a b := by
  induction xs generalizing x with
  | nil =>
      intro b hb
      cases hb
  | cons y ys ih =>
      intro b hb
      rcases List.mem_cons.mp hb with rfl | hb'
      · exact ⟨x, (List.chain'_cons.mp h).1⟩
      · exact ih y (List.chain'_cons.mp h).2 b hb'

theorem wfchain_filter_starts (x : WorkspaceHistory) (xs : List WorkspaceHistory)
    (hch : List.Chain' ChainLink (x :: xs)) (hx : x.beforeID = Option.none) :
    (x :: xs).filter (fun b => b.beforeID.isNone) = [x] := by
  have htail : xs.filter (fun b => b.beforeID.isNone) = [] := by
    rw [List.filter_eq_nil_iff]
    intro b hb
    obtain ⟨a, ha⟩ := chain_tail_has_pred x xs hch b hb
    simp [ha.2]
  simp [List.filter, hx, htail]

theorem findBuild_unique {l : List WorkspaceHistory}
    (hnod : (l.map WorkspaceHistory.id).Nodup) {b : WorkspaceHistory} (hb : b ∈ l) :
    findBuild l b.id = some b :=
  find?_unique _ l b hb (by simp)
    (fun x hx hpx => map_nodup_mem_inj _ _ hnod hx hb (by simpa using hpx))

theorem id_not_mem_of_nodup_decomp (pre rest : List WorkspaceHistory)
    (b : WorkspaceHistory)
    (hnod : ((pre ++ b :: rest).map WorkspaceHistory.id).Nodup) :
    ∀ x ∈ rest, x.id ≠ b.id := by
  intro x hx
  have hsub : List.Sublist ((b :: rest).map WorkspaceHistory.id)
      ((pre ++ b :: rest).map WorkspaceHistory.id) := by
    rw [List.map_append]
    exact List.sublist_append_right _ _
  have hnod' : ((b :: rest).map WorkspaceHistory.id).Nodup := hnod.sublist hsub
  simp only [List.map_cons, List.nodup_cons] at hnod'
  intro heq
  exact hnod'.1 (heq ▸ List.mem_map_of_mem WorkspaceHistory.id hx)

theorem traverseChain_on_chain (ws : List WorkspaceHistory)
    (hch : List.Chain' ChainLink ws)
    (hnod : (ws.map WorkspaceHistory.id).Nodup)
    (hlast : ∀ b, ws.getLast? = some b → b.afterID = Option.none) :
    ∀ (suffix pre : List WorkspaceHistory) (visited : List Nat) (fuel : Nat),
      ws = pre ++ suffix →
      (∀ x ∈ suffix, x.id ∉ visited) →
      suffix.length ≤ fuel + 1 →
      ∀ (b : WorkspaceHistory) (rest : List WorkspaceHistory), suffix = b :: rest →
      traverseChain ws fuel visited b = Except.ok suffix := by
  intro suffix
  induction suffix with
  | nil =>
      intro pre visited fuel _ _ _ b rest hsf
      cases hsf
  | cons hd tl ih =>
      intro pre visited fuel hws hvis hfuel b rest hsf
      injection hsf with hb ht
      subst hb
      subst ht
      have hguard : hd.id ∉ visited := hvis hd (List.mem_cons_self _ _)
      cases tl with
      | nil =>
          have hblast : ws.getLast? = some hd := by
            rw [hws, List.getLast?_concat]
          have hafter : hd.afterID = Option.none := hlast hd hblast
          cases fuel with
          | zero => simp [traverseChain, hguard, hafter]
          | succ f => simp [traverseChain, hguard, hafter]
      | cons c rest' =>
          have hchsuf : List.Chain' ChainLink (hd :: c :: rest') :=
            ((List.chain'_append.mp (hws ▸ hch)).2).1
          have hlink : ChainLink hd c := (List.chain'_cons.mp hchsuf).1
          have hcmem : c ∈ ws := by
            rw [hws]
            exact List.mem_append_right _ (by simp)
          have hfind : findBuild ws c.id = some c := findBuild_unique hnod hcmem
          cases fuel with
          | zero => simp at hfuel
          | succ f =>
              have hrec : traverseChain ws f (hd.id :: visited) c =
                  Except.ok (c :: rest') := by
                refine ih (pre ++ [hd]) (hd.id :: visited) f ?_ ?_ ?_ c rest' rfl
                · rw [hws, List.append_assoc]
                  rfl
                · intro x hx
                  simp only [List.mem_cons]
                  push_neg
                  constructor
                  · exact id_not_mem_of_nodup_decomp pre (c :: rest') hd (hws ▸ hnod) x hx
                  · exact hvis x (List.mem_cons_of_mem hd hx)
                · simpa using Nat.le_of_succ_le_succ (by simpa using hfuel)
              rw [traverseChain, if_neg hguard, hlink.1]
              simp [hfind, hlink.2, hrec, Except.map]

theorem history_of_wfchain (s : CoderState) (wid : Nat)
    (hwf : WFChain (buildsOf s wid)) :
    history s wid = Except.ok (buildsOf s wid) := by
  obtain ⟨hch, hhead, hlast, hnod, hinc⟩ := hwf
  cases hws : buildsOf s wid with
  | nil => simp [history, hws]
  | cons x xs =>
      have hx : x.beforeID = Option.none := by
        refine hhead x ?_
        rw [hws]
        rfl
      have hfilter : (buildsOf s wid).filter (fun b => b.beforeID.isNone) = [x] := by
        rw [hws]
        exact wfchain_filter_starts x xs (hws ▸ hch) hx
      have htrav : traverseChain (buildsOf s wid) (buildsOf s wid).length [] x =
          Except.ok (buildsOf s wid) := by
        refine traverseChain_on_chain (buildsOf s wid) hch hnod hlast
          (buildsOf s wid) [] [] (buildsOf s wid).length rfl
          (fun y _ => List.not_mem_nil y.id) ?_ x xs hws
        omega
      simp only [history, hfilter, htrav]
      simp
      exact hws

/- ### Theorems: soundness of history reconstruction -/

theorem traverseChain_sound (bs : List WorkspaceHistory) :
    ∀ (fuel : Nat) (visited : List Nat) (b : WorkspaceHistory)
      (L : List WorkspaceHistory),
      traverseChain bs fuel visited b = Except.ok L →
      L.head? = some b ∧
      (∀ x ∈ L, x = b ∨ x ∈ bs) ∧
      List.Chain' ChainLink L ∧
      (∀ x, L.getLast? = some x → x.afterID = Option.none) ∧
      (L.map WorkspaceHistory.id).Nodup ∧
      (∀ x ∈ L, x.id ∉ visited) := by
  intro fuel
  induction fuel with
  | zero =>
      intro visited b L hok
      rw [traverseChain] at hok
      split at hok
      · cases hok
      · rename_i hguard
        split at hok
        · rename_i hafter
          injection hok with hok
          subst hok
          refine ⟨rfl, ?_, ?_, ?_, ?_, ?_⟩
          · intro x hx
            simp only [List.mem_singleton] at hx
            exact Or.inl hx
          · simp
          · intro x hx
            simp only [List.getLast?_singleton, Option.some.injEq] at hx
            subst hx
            exact hafter
          · simp
          · intro x hx
            simp only [List.mem_singleton] at hx
            subst hx
            exact hguard
        · cases hok
  | succ f ih =>
      intro visited b L hok
      rw [traverseChain] at hok
      split at hok
      · cases hok
      · rename_i hguard
        split at hok
        · rename_i hafter
          injection hok with hok
          subst hok
          refine ⟨rfl, ?_, ?_, ?_, ?_, ?_⟩
          · intro x hx
            simp only [List.mem_singleton] at hx
            exact Or.inl hx
          · simp
          · intro x hx
            simp only [List.getLast?_singleton, Option.some.injEq] at hx
            subst hx
            exact hafter
          · simp
          · intro x hx
            simp only [List.mem_singleton] at hx
            subst hx
            exact hguard
        · rename_i nextID hafter
          split at hok
          · cases hok
          · rename_i c hfind
            have hcmem : c ∈ bs := List.mem_of_find?_eq_some hfind
            have hcid : c.id = nextID := by simpa using List.find?_some hfind
            split at hok
            · rename_i hback
              cases hrec : traverseChain bs f (b.id :: visited) c with
              | error e =>
                  rw [hrec] at hok
                  cases hok
              | ok L' =>
                  rw [hrec] at hok
                  injection hok with hok
                  subst hok
                  obtain ⟨ihh, ihmem, ihch, ihlast, ihnod, ihvis⟩ := ih _ _ _ hrec
                  have hLne : L' ≠ [] := by
                    intro h
                    rw [h] at ihh
                    cases ihh
                  refine ⟨rfl, ?_, ?_, ?_, ?_, ?_⟩
                  · intro x hx
                    rcases List.mem_cons.mp hx with rfl | hx'
                    · exact Or.inl rfl
                    · rcases ihmem x hx' with rfl | hxbs
                      · exact Or.inr hcmem
                      · exact Or.inr hxbs
                  · rw [List.chain'_cons']
                    refine ⟨?_, ihch⟩
                    intro y hy
                    rw [ihh] at hy
                    injection hy with hy
                    subst hy
                    refine ⟨?_, hback⟩
                    rw [hafter, hcid]
                  · intro x hx
                    cases L' with
                    | nil => exact absurd rfl hLne
                    | cons y ys =>
                        simp only [List.getLast?_cons_cons] at hx
                        exact ihlast x hx
                  · simp only [List.map_cons, List.nodup_cons]
                    refine ⟨?_, ihnod⟩
                    intro hcontra
                    obtain ⟨y, hy, hyid⟩ := List.mem_map.mp hcontra
                    exact ihvis y hy (hyid ▸ List.mem_cons_self _ _)
                  · intro x hx
                    rcases List.mem_cons.mp hx with rfl | hx'
                    · exact hguard
                    · intro hxv
                      exact ihvis x hx' (List.mem_cons_of_mem _ hxv)
            · cases hok

theorem traverseChain_error (bs : List WorkspaceHistory) :
    ∀ (fuel : Nat) (visited : List Nat) (b : WorkspaceHistory) (e : BuildError),
      traverseChain bs fuel visited b = Except.error e → e = BuildError.corruptHistory := by
  intro fuel
  induction fuel with
  | zero =>
      intro visited b e hok
      rw [traverseChain] at hok
      split at hok
      · cases hok
        rfl
      · split at hok
        · cases hok
        · cases hok
          rfl
  | succ f ih =>
      intro visited b e hok
      rw [traverseChain] at hok
      split at hok
      · cases hok
        rfl
      · split at hok
        · cases hok
        · split at hok
          · cases hok
            rfl
          · split at hok
            · cases hrec : traverseChain bs f (b.id :: _) _ with
              | error e' =>
                  rw [hrec] at hok
                  cases hok
                  exact ih _ _ _ hrec
              | ok L' =>
                  rw [hrec] at hok
                  cases hok
            · cases hok
              rfl

theorem history_sound (s : CoderState) (wid : Nat) (L : List WorkspaceHistory)
    (hnod : ((buildsOf s wid).map WorkspaceHistory.id).Nodup)
    (hok : history s wid = Except.ok L) :
    (∀ x, x ∈ L ↔ x ∈ buildsOf s wid) ∧
    List.Chain' ChainLink L ∧
    (L.map WorkspaceHistory.id).Nodup ∧
    (∀ x, L.head? = some x → x.beforeID = Option.none) ∧
    (∀ x, L.getLast? = some x → x.afterID = Option.none) := by
  simp only [history] at hok
  split at hok
  · rename_i hfe
    split at hok
    · rename_i hws
      injection hok with hok
      subst hok
      rw [hws]
      refine ⟨by simp, by simp, by simp, by simp, by simp⟩
    · cases hok
  · rename_i start hfe
    split at hok
    · cases hok
    · rename_i l htrav
      split at hok
      · rename_i hlen
        injection hok with hok
        subst hok
        obtain ⟨shead, smem, sch, slast, snod, _⟩ :=
          traverseChain_sound _ _ _ _ _ htrav
        have hstartf : start ∈ (buildsOf s wid).filter (fun b => b.beforeID.isNone) := by
          rw [hfe]
          exact List.mem_singleton.mpr rfl
        have hstart := List.mem_filter.mp hstartf
        have hsub : ∀ x ∈ l, x ∈ buildsOf s wid := by
          intro x hx
          rcases smem x hx with rfl | h
          · exact hstart.1
          · exact h
        have hLnodup : l.Nodup := List.Nodup.of_map _ snod
        have hperm : l.Perm (buildsOf s wid) :=
          (List.subperm_of_subset hLnodup hsub).perm_of_length_le (le_of_eq hlen.symm)
        refine ⟨fun x => hperm.mem_iff, sch, snod, ?_, slast⟩
        intro x hx
        rw [shead] at hx
        injection hx with hx
        subst hx
        simpa using hstart.2
      · cases hok
  · cases hok

theorem history_error (s : CoderState) (wid : Nat) (e : BuildError)
    (herr : history s wid = Except.error e) : e = BuildError.corruptHistory := by
  simp only [history] at herr
  split at herr
  · split at herr
    · cases herr
    · cases herr
      rfl
  · split at herr
    · rename_i htrav
      cases herr
      exact traverseChain_error _ _ _ _ _ htrav
    · split at herr
      · cases herr
      · cases herr
        rfl
  · cases herr
    rfl

theorem chain_succ_exists {R : WorkspaceHistory → WorkspaceHistory → Prop}
    (l : List WorkspaceHistory) (hch : List.Chain' R l) :
    ∀ b ∈ l, l.getLast? = some b ∨ ∃ y ∈ l, R b y := by
  induction l with
  | nil => intro b hb; cases hb
  | cons x xs ih =>
      intro b hb
      cases xs with
      | nil =>
          rcases List.mem_singleton.mp hb with rfl
          exact Or.inl rfl
      | cons y ys =>
          rcases List.mem_cons.mp hb with rfl | hb'
          · exact Or.inr ⟨y, List.mem_cons_of_mem _ (List.mem_cons_self _ _),
              (List.chain'_cons.mp hch).1⟩
          · rcases ih (List.chain'_cons.mp hch).2 b hb' with hl | ⟨z, hz, hrz⟩
            · rw [List.getLast?_cons_cons]
              exact Or.inl hl
            · exact Or.inr ⟨z, List.mem_cons_of_mem _ hz, hrz⟩

theorem chain_pred_exists {R : WorkspaceHistory → WorkspaceHistory → Prop}
    (l : List WorkspaceHistory) (hch : List.Chain' R l) :
    ∀ b ∈ l, l.head? = some b ∨ ∃ p ∈ l, R p b := by
  induction l with
  | nil => intro b hb; cases hb
  | cons x xs ih =>
      intro b hb
      rcases List.mem_cons.mp hb with rfl | hb'
      · exact Or.inl rfl
      · cases xs with
        | nil => cases hb'
        | cons y ys =>
            rcases ih (List.chain'_cons.mp hch).2 b hb' with hh | ⟨p, hp, hrp⟩
            · injection hh with hh
              subst hh
              exact Or.inr ⟨x, List.mem_cons_self _ _, (List.chain'_cons.mp hch).1⟩
            · exact Or.inr ⟨p, List.mem_cons_of_mem _ hp, hrp⟩

theorem chain_succ_index (L : List WorkspaceHistory) :
    (L.map WorkspaceHistory.id).Nodup → List.Chain' ChainLink L →
    (∀ x, L.getLast? = some x → x.afterID = Option.none) →
    ∀ b ∈ L, ∀ c ∈ L, b.afterID = some c.id →
      (L.map WorkspaceHistory.id).indexOf c.id =
        (L.map WorkspaceHistory.id).indexOf b.id + 1 := by
  induction L with
  | nil =>
      intro _ _ _ b hb
      cases hb
  | cons x xs ih =>
      intro hnod hch hlast b hb c hc hbc
      rw [List.map_cons] at hnod
      have hnc := List.nodup_cons.mp hnod
      rcases List.mem_cons.mp hb with rfl | hbxs
      · cases xs with
        | nil =>
            have hxa : b.afterID = Option.none := hlast b rfl
            rw [hxa] at hbc
            cases hbc
        | cons z zs =>
            have hlink : ChainLink b z := (List.chain'_cons.mp hch).1
            have hcz : c.id = z.id := by
              have := hbc.symm.trans hlink.1
              injection this
            have hzx : z.id ≠ b.id := by
              intro h
              exact hnc.1 (h ▸ List.mem_map_of_mem _ (List.mem_cons_self z zs))
            have hcx : b.id ≠ c.id := by
              rw [hcz]
              exact fun h => hzx h.symm
            have hm : List.map WorkspaceHistory.id (b :: z :: zs) =
                b.id :: z.id :: List.map WorkspaceHistory.id zs := by simp
            rw [hm, List.indexOf_cons_ne _ hcx, List.indexOf_cons_self, hcz,
              List.indexOf_cons_self]
      · cases xs with
        | nil => cases hbxs
        | cons z zs =>
            have hchxs : List.Chain' ChainLink (z :: zs) := (List.chain'_cons.mp hch).2
            have hlastxs : ∀ y, (z :: zs).getLast? = some y → y.afterID = Option.none := by
              intro y hy
              exact hlast y (by rw [List.getLast?_cons_cons]; exact hy)
            have hbx : b.id ≠ x.id := by
              intro h
              exact hnc.1 (h ▸ List.mem_map_of_mem _ hbxs)
            rcases List.mem_cons.mp hc with rfl | hcxs
            · rcases chain_succ_exists (z :: zs) hchxs b hbxs with hblast | ⟨y, hy, hby⟩
              · rw [hlastxs b hblast] at hbc
                cases hbc
              · have hyc : y.id = c.id := by
                  have := hby.1.symm.trans hbc
                  injection this
                exact absurd (hyc ▸ List.mem_map_of_mem WorkspaceHistory.id hy) hnc.1
            · have hcxne : c.id ≠ x.id := by
                intro h
                exact hnc.1 (h ▸ List.mem_map_of_mem _ hcxs)
              have ihres := ih hnc.2 hchxs hlastxs b hbxs c hcxs hbc
              rw [List.map_cons, List.indexOf_cons_ne _ (fun h => hcxne h.symm),
                List.indexOf_cons_ne _ (fun h => hbx h.symm)]
              omega

theorem history_corrupt (s : CoderState) (wid : Nat)
    (hnod : ((buildsOf s wid).map WorkspaceHistory.id).Nodup)
    (hcor : HasCycle (buildsOf s wid) ∨ HasDangling (buildsOf s wid)) :
    history s wid = Except.error BuildError.corruptHistory := by
  cases hh : history s wid with
  | error e => rw [history_error s wid e hh]
  | ok L =>
      exfalso
      obtain ⟨hmem, hch, hLnod, hhead, hlast⟩ := history_sound s wid L hnod hh
      have hstep : ∀ p q, AfterStep (buildsOf s wid) p q →
          (L.map WorkspaceHistory.id).indexOf q.id =
            (L.map WorkspaceHistory.id).indexOf p.id + 1 := by
        rintro p q ⟨hpw, hqw, hpq⟩
        exact chain_succ_index L hLnod hch hlast p ((hmem p).mpr hpw)
          q ((hmem q).mpr hqw) hpq
      have hstepb : ∀ p q, BeforeStep (buildsOf s wid) p q →
          (L.map WorkspaceHistory.id).indexOf p.id =
            (L.map WorkspaceHistory.id).indexOf q.id + 1 := by
        rintro p q ⟨hpw, hqw, hpq⟩
        have hpL := (hmem p).mpr hpw
        rcases chain_pred_exists L hch p hpL with hh' | ⟨r, hr, hrp⟩
        · rw [hhead p hh'] at hpq
          cases hpq
        · have hqr : q.id = r.id := by
            have := hpq.symm.trans hrp.2
            injection this
          have hq : q = r :=
            map_nodup_mem_inj _ _ hLnod ((hmem q).mpr hqw) hr hqr
          subst hq
          exact chain_succ_index L hLnod hch hlast q hr p hpL hrp.1
      rcases hcor with ⟨b, hcyc | hcyc⟩ | ⟨b, hbws, hdang⟩
      · have hmono : ∀ p q, Relation.TransGen (AfterStep (buildsOf s wid)) p q →
            (L.map WorkspaceHistory.id).indexOf p.id <
              (L.map WorkspaceHistory.id).indexOf q.id := by
          intro p q htg
          induction htg with
          | single h => rw [hstep _ _ h]; omega
          | tail _ h ih2 =>
              have := hstep _ _ h
              omega
        exact absurd (hmono b b hcyc) (lt_irrefl _)
      · have hmono : ∀ p q, Relation.TransGen (BeforeStep (buildsOf s wid)) p q →
            (L.map WorkspaceHistory.id).indexOf q.id <
              (L.map WorkspaceHistory.id).indexOf p.id := by
          intro p q htg
          induction htg with
          | single h => rw [hstepb _ _ h]; omega
          | tail _ h ih2 =>
              have := hstepb _ _ h
              omega
        exact absurd (hmono b b hcyc) (lt_irrefl _)
      · have hbL := (hmem b).mpr hbws
        rcases hdang with ⟨i, hai, hnone⟩ | ⟨i, hbi, hnone⟩
        · rcases chain_succ_exists L hch b hbL with hbl | ⟨y, hy, hby⟩
          · rw [hlast b hbl] at hai
            cases hai
          · have hyi : y.id = i := by
              have := hby.1.symm.trans hai
              injection this
            exact hnone y ((hmem y).mp hy) hyi
        · rcases chain_pred_exists L hch b hbL with hh' | ⟨p, hp, hpb⟩
          · rw [hhead b hh'] at hbi
            cases hbi
          · have hpi : p.id = i := by
              have := hpb.2.symm.trans hbi
              injection this
            exact hnone p ((hmem p).mp hp) hpi

/- ### Theorems: orchestration-state invariant -/

theorem coderTimesLT_store {s : CoderState} {t : Nat} (h : coderTimesLT s t = true) :
    storeTimesLE s.store t = true := by
  simp only [coderTimesLT, Bool.and_eq_true, List.all_eq_true] at h
  simp only [storeTimesLE, List.all_eq_true]
  intro j hj
  exact (h.1 j hj).1.1.1.1

theorem coderTimesLT_builds {s : CoderState} {t : Nat} (h : coderTimesLT s t = true) :
    ∀ b ∈ s.builds, b.createdAt < t := by
  simp only [coderTimesLT, Bool.and_eq_true, List.all_eq_true, decide_eq_true_eq] at h
  exact h.2

theorem applyCoderOp_jobOp (s : CoderState) (op' : JobOp) (now : Nat) :
    (applyCoderOp s (CoderOp.jobOp op') now).1 =
      { s with store := applyJobOp s.store op' now } := by
  cases op' with
  | enqueue jt p r =>
      rcases henq : enqueueJob s.store jt p r now with ⟨store', res⟩
      cases res <;> simp [applyCoderOp, applyJobOp, henq]
  | claim d acc =>
      simp [applyCoderOp, applyJobOp]
  | complete jid =>
      rcases h : completeJob s.store jid now with ⟨store', res⟩
      cases res <;> simp [applyCoderOp, applyJobOp, h]
  | fail jid msg =>
      rcases h : failJob s.store jid msg now with ⟨store', res⟩
      cases res <;> simp [applyCoderOp, applyJobOp, h]
  | cancel jid =>
      rcases h : cancelJob s.store jid now with ⟨store', res⟩
      cases res <;> simp [applyCoderOp, applyJobOp, h]

theorem applyCoderOp_import (s : CoderState) (ref : String) (now : Nat) :
    (applyCoderOp s (CoderOp.importVersion ref) now).1 =
      { s with store :=
          (enqueueJob s.store ProvisionerJobType.projectVersionImport ref ref now).1 } := by
  rcases h : enqueueJob s.store ProvisionerJobType.projectVersionImport ref ref now
    with ⟨store', res⟩
  cases res <;> simp [applyCoderOp, importVersion, h]

theorem applyJobOp_ids_mono (s : JobStore) (op : JobOp) (now : Nat) :
    ∀ i ∈ s.jobs.map ProvisionerJob.id,
      i ∈ (applyJobOp s op now).jobs.map ProvisionerJob.id := by
  intro i hi
  cases op with
  | enqueue jt p r =>
      simp only [applyJobOp, enqueueJob]
      split
      · exact hi
      · simp only [List.map_append]
        exact List.mem_append_left _ hi
  | claim d acc =>
      simp only [applyJobOp, claimJob]
      cases hfind : s.jobs.find? (ProvisionerJob.eligible acc) with
      | none => exact hi
      | some j =>
          rw [updateJob_ids s j.id
            (fun _ => { j with startedAt := some now, workerID := some d })
            (fun y hy => hy.symm)]
          exact hi
  | complete jid =>
      cases hfind : findJob s jid with
      | none =>
          simp only [applyJobOp, completeJob, hfind]
          exact hi
      | some j =>
          by_cases hguard : (j.isTerminal || j.workerID.isNone) = true
          · simp only [applyJobOp, completeJob, hfind, hguard, if_true]
            exact hi
          · simp only [applyJobOp, completeJob, hfind]
            rw [if_neg hguard, updateJob_ids s jid
              (fun x => { x with completedAt := some now }) (fun x _ => rfl)]
            exact hi
  | fail jid msg =>
      cases hfind : findJob s jid with
      | none =>
          simp only [applyJobOp, failJob, hfind]
          exact hi
      | some j =>
          by_cases hguard : (j.isTerminal || j.workerID.isNone) = true
          · simp only [applyJobOp, failJob, hfind, hguard, if_true]
            exact hi
          · simp only [applyJobOp, failJob, hfind]
            rw [if_neg hguard, updateJob_ids s jid
              (fun x => { x with completedAt := some now, jobError := some msg })
              (fun x _ => rfl)]
            exact hi
  | cancel jid =>
      cases hfind : findJob s jid with
      | none =>
          simp only [applyJobOp, cancelJob, hfind]
          exact hi
      | some j =>
          by_cases hguard : j.isTerminal = true
          · simp only [applyJobOp, cancelJob, hfind, hguard, if_true]
            exact hi
          · simp only [applyJobOp, cancelJob, hfind]
            rw [if_neg hguard, updateJob_ids s jid
              (fun x => { x with cancelledAt := some now }) (fun x _ => rfl)]
            exact hi

theorem filter_map_wid (w : Nat) (l : List WorkspaceHistory)
    (g : WorkspaceHistory → WorkspaceHistory)
    (hg : ∀ b, (g b).workspaceID = b.workspaceID) :
    (l.map g).filter (fun b => b.workspaceID = w) =
      (l.filter (fun b => b.workspaceID = w)).map g := by
  induction l with
  | nil => rfl
  | cons x xs ih =>
      by_cases hx : x.workspaceID = w
      · simp [List.filter_cons, hx, hg, ih]
      · simp [List.filter_cons, hx, hg, ih]

theorem map_id_on (l : List WorkspaceHistory) (g : WorkspaceHistory → WorkspaceHistory)
    (h : ∀ b ∈ l, g b = b) : l.map g = l := by
  induction l with
  | nil => rfl
  | cons x xs ih =>
      rw [List.map_cons, h x (List.mem_cons_self _ _), ih (fun b hb => h b (List.mem_cons_of_mem _ hb))]

theorem concat_nodup_ne (l₀ : List WorkspaceHistory) (p : WorkspaceHistory)
    (hnod : ((l₀ ++ [p]).map WorkspaceHistory.id).Nodup) :
    ∀ b ∈ l₀, b.id ≠ p.id := by
  intro b hb heq
  rw [List.map_append] at hnod
  rcases List.nodup_append.mp hnod with ⟨_, _, hdisj⟩
  exact hdisj (List.mem_map_of_mem _ hb) (by simp [heq])

theorem requestBuild_ok {s : CoderState} {wid vid : Nat} {tr : WorkspaceTransition}
    {ini payload ref : String} {now : Nat} {s' : CoderState} {nb : WorkspaceHistory}
    (h : requestBuild s wid vid tr ini payload ref now = (s', Except.ok nb)) :
    hasInFlightBuild s wid = false ∧
    nb = { id := s.nextBuildID, createdAt := now, workspaceID := wid,
           projectVersionID := vid, transition := tr, initiator := ini,
           provisionerState := "",
           beforeID := ((buildsOf s wid).getLast?).map (fun p => p.id),
           afterID := none, provisionJobID := s.store.nextID } ∧
    s' = { store :=
             { jobs := s.store.jobs ++
                 [{ id := s.store.nextID, createdAt := now, startedAt := none,
                    cancelledAt := none, completedAt := none, jobError := none,
                    jobType := ProvisionerJobType.workspaceProvision, input := payload,
                    storageSource := ref, workerID := none }],
               nextID := s.store.nextID + 1 },
           builds := (s.builds.map (fun b =>
             if some b.id = ((buildsOf s wid).getLast?).map (fun p => p.id)
             then { b with afterID := some nb.id } else b)) ++ [nb],
           nextBuildID := s.nextBuildID + 1 } := by
  unfold requestBuild at h
  split at h
  · exact absurd h (by simp)
  · rename_i hin
    have hin' : hasInFlightBuild s wid = false := by
      revert hin
      cases hasInFlightBuild s wid <;> simp
    split at h
    · exact absurd h (by simp)
    · rename_i store' job heq
      unfold enqueueJob at heq
      split at heq
      · exact absurd heq (by simp)
      · injection heq with h1 h2
        injection h2 with h2
        subst h1
        subst h2
        injection h with hs hnb
        injection hnb with hnb
        subst hnb
        subst hs
        exact ⟨hin', rfl, rfl⟩

theorem wfchain_extend (l : List WorkspaceHistory) (nb : WorkspaceHistory)
    (hwf : WFChain l)
    (hfresh : ∀ b ∈ l, b.id ≠ nb.id)
    (htime : ∀ b ∈ l, b.createdAt < nb.createdAt)
    (hafter : nb.afterID = Option.none)
    (hbefore : nb.beforeID = (l.getLast?).map (fun p => p.id)) :
    WFChain ((l.map (fun b =>
      if some b.id = (l.getLast?).map (fun p => p.id)
      then { b with afterID := some nb.id } else b)) ++ [nb]) := by
  obtain ⟨hch, hhead, hlast, hnod, hinc⟩ := hwf
  rcases List.eq_nil_or_concat' l with rfl | ⟨l₀, p, rfl⟩
  · simp only [List.map_nil, List.nil_append]
    refine ⟨by simp, ?_, ?_, by simp, by simp⟩
    · intro b hb
      injection hb with hb
      subst hb
      simpa using hbefore
    · intro b hb
      simp only [List.getLast?_singleton, Option.some.injEq] at hb
      subst hb
      exact hafter
  · have hgl : (l₀ ++ [p]).getLast? = some p := List.getLast?_concat _
    have hne := concat_nodup_ne l₀ p hnod
    have hmap : (l₀ ++ [p]).map (fun b =>
        if some b.id = ((l₀ ++ [p]).getLast?).map (fun q => q.id)
        then { b with afterID := some nb.id } else b) =
        l₀ ++ [{ p with afterID := some nb.id }] := by
      rw [List.map_append]
      congr 1
      · apply map_id_on
        intro b hb
        rw [hgl]
        simp [hne b hb]
      · rw [List.map_singleton, hgl]
        simp
    rw [hmap]
    have hnbefore : nb.beforeID = some p.id := by
      rw [hbefore, hgl]
      rfl
    obtain ⟨hch0, hchp, hjun⟩ := List.chain'_append.mp hch
    obtain ⟨hinc0, hincp, hincj⟩ := List.chain'_append.mp hinc
    refine ⟨?_, ?_, ?_, ?_, ?_⟩
    · rw [List.chain'_append]
      refine ⟨?_, by simp, ?_⟩
      · rw [List.chain'_append]
        refine ⟨hch0, by simp, ?_⟩
        intro x hx y hy
        simp only [List.head?_cons, Option.mem_def, Option.some.injEq] at hy
        subst hy
        have hlk := hjun x hx p (by simp)
        exact ⟨hlk.1, hlk.2⟩
      · intro x hx y hy
        simp only [List.getLast?_concat, Option.mem_def, Option.some.injEq] at hx
        simp only [List.head?_cons, Option.mem_def, Option.some.injEq] at hy
        subst hx
        subst hy
        exact ⟨rfl, hnbefore⟩
    · intro b hb
      cases l₀ with
      | nil =>
          simp only [List.nil_append, List.singleton_append, List.head?_cons,
            Option.some.injEq] at hb
          subst hb
          exact hhead p rfl
      | cons a l₀' =>
          simp only [List.cons_append, List.head?_cons, Option.some.injEq] at hb
          subst hb
          exact hhead a rfl
    · intro b hb
      rw [List.getLast?_concat] at hb
      injection hb with hb
      subst hb
      exact hafter
    · have hids : (((l₀ ++ [{ p with afterID := some nb.id }]) ++ [nb]).map
          WorkspaceHistory.id) =
          ((l₀ ++ [p]).map WorkspaceHistory.id) ++ [nb.id] := by
        simp
      rw [hids, List.nodup_append]
      refine ⟨hnod, List.nodup_singleton _, ?_⟩
      intro a ha hb
      simp only [List.mem_singleton] at hb
      subst hb
      obtain ⟨y, hy, hyid⟩ := List.mem_map.mp ha
      exact hfresh y hy hyid
    · rw [List.chain'_append]
      refine ⟨?_, by simp, ?_⟩
      · rw [List.chain'_append]
        refine ⟨hinc0, by simp, ?_⟩
        intro x hx y hy
        simp only [List.head?_cons, Option.mem_def, Option.some.injEq] at hy
        subst hy
        exact hincj x hx p (by simp)
      · intro x hx y hy
        simp only [List.getLast?_concat, Option.mem_def, Option.some.injEq] at hx
        simp only [List.head?_cons, Option.mem_def, Option.some.injEq] at hy
        subst hx
        subst hy
        exact htime p (List.mem_append_right _ (List.mem_singleton.mpr rfl))


theorem requestBuild_error_state {s : CoderState} {wid vid : Nat} {tr : WorkspaceTransition}
    {ini payload ref : String} {now : Nat} {s' : CoderState} {e : BuildError}
    (h : requestBuild s wid vid tr ini payload ref now = (s', Except.error e)) : s' = s := by
  unfold requestBuild at h
  split at h
  · injection h with h1 _
    exact h1.symm
  · split at h
    · injection h with h1 _
      exact h1.symm
    · exact absurd h (by simp)

theorem storeWF_append_fresh (st : JobStore) (j : ProvisionerJob) (hwf : StoreWF st)
    (hid : j.id = st.nextID) (hjwf : JobWF j) :
    StoreWF { jobs := st.jobs ++ [j], nextID := st.nextID + 1 } := by
  obtain ⟨hnod, hlt, hjob⟩ := hwf
  refine ⟨?_, ?_, ?_⟩
  · simp only [List.map_append, List.map_cons, List.map_nil]
    rw [List.nodup_append]
    refine ⟨hnod, List.nodup_singleton _, ?_⟩
    intro a ha hb
    simp only [List.mem_singleton] at hb
    subst hb
    obtain ⟨y, hy, hyid⟩ := List.mem_map.mp ha
    rw [hid] at hyid
    exact absurd (hyid ▸ hlt y hy) (lt_irrefl _)
  · intro x hx
    rcases List.mem_append.mp hx with hx' | hx'
    · exact Nat.lt_succ_of_lt (hlt x hx')
    · simp only [List.mem_singleton] at hx'
      subst hx'
      rw [hid]
      exact Nat.lt_succ_self _
  · intro x hx
    rcases List.mem_append.mp hx with hx' | hx'
    · exact hjob x hx'
    · simp only [List.mem_singleton] at hx'
      subst hx'
      exact hjwf

theorem coderInv_empty : CoderInv emptyCoderState := by
  refine ⟨⟨by simp [emptyCoderState, emptyJobStore], by simp [emptyCoderState, emptyJobStore],
    by simp [emptyCoderState, emptyJobStore]⟩, by simp [emptyCoderState],
    by simp [emptyCoderState], by simp [emptyCoderState], ?_⟩
  intro wid
  refine ⟨by simp [emptyCoderState, buildsOf], ?_, ?_, by simp [emptyCoderState, buildsOf],
    by simp [emptyCoderState, buildsOf]⟩ <;>
    (intro b hb
     simp [emptyCoderState, buildsOf] at hb)

theorem coderInv_requestBuild (s : CoderState) (wid vid : Nat) (tr : WorkspaceTransition)
    (ini payload ref : String) (now : Nat)
    (hinv : CoderInv s) (ht : coderTimesLT s now = true) :
    CoderInv (requestBuild s wid vid tr ini payload ref now).1 := by
  rcases hr : requestBuild s wid vid tr ini payload ref now with ⟨s', res⟩
  cases res with
  | error e =>
      rw [requestBuild_error_state hr]
      exact hinv
  | ok nb =>
      obtain ⟨hin, hnb, hs'⟩ := requestBuild_ok hr
      obtain ⟨hs, hbn, hblt, href, hch⟩ := hinv
      have hnbid : nb.id = s.nextBuildID := by rw [hnb]
      have hnbwid : nb.workspaceID = wid := by rw [hnb]
      have hgid : ∀ b : WorkspaceHistory,
          (if some b.id = ((buildsOf s wid).getLast?).map (fun p => p.id)
           then { b with afterID := some nb.id } else b).id = b.id := by
        intro b
        by_cases hc : some b.id = ((buildsOf s wid).getLast?).map (fun p => p.id) <;>
          simp [hc]
      have hgwid : ∀ b : WorkspaceHistory,
          (if some b.id = ((buildsOf s wid).getLast?).map (fun p => p.id)
           then { b with afterID := some nb.id } else b).workspaceID = b.workspaceID := by
        intro b
        by_cases hc : some b.id = ((buildsOf s wid).getLast?).map (fun p => p.id) <;>
          simp [hc]
      have hgjob : ∀ b : WorkspaceHistory,
          (if some b.id = ((buildsOf s wid).getLast?).map (fun p => p.id)
           then { b with afterID := some nb.id } else b).provisionJobID = b.provisionJobID := by
        intro b
        by_cases hc : some b.id = ((buildsOf s wid).getLast?).map (fun p => p.id) <;>
          simp [hc]
      subst hs'
      refine ⟨?_, ?_, ?_, ?_, ?_⟩
      · refine storeWF_append_fresh s.store _ hs rfl ?_
        refine ⟨by simp, by simp, by simp, ?_, ?_, ?_, ?_⟩
        · intro t htt
          simp at htt
        · intro a b hh
          simp at hh
        · intro a b hh
          simp at hh
        · intro t htt
          simp at htt
      · dsimp only
        rw [List.map_append, List.map_map, List.map_cons, List.map_nil]
        have hmid : s.builds.map (WorkspaceHistory.id ∘ (fun b =>
            if some b.id = ((buildsOf s wid).getLast?).map (fun p => p.id)
            then { b with afterID := some nb.id } else b)) =
            s.builds.map WorkspaceHistory.id :=
          List.map_congr_left (fun b _ => hgid b)
        rw [hmid, List.nodup_append]
        refine ⟨hbn, List.nodup_singleton _, ?_⟩
        intro a ha hbm
        simp only [List.mem_singleton] at hbm
        subst hbm
        obtain ⟨y, hy, hyid⟩ := List.mem_map.mp ha
        rw [hnbid] at hyid
        exact absurd (hyid ▸ hblt y hy) (lt_irrefl _)
      · intro b hb
        dsimp only at hb ⊢
        rcases List.mem_append.mp hb with hb' | hb'
        · obtain ⟨y, hy, hxy⟩ := List.mem_map.mp hb'
          rw [← hxy, hgid y]
          exact Nat.lt_succ_of_lt (hblt y hy)
        · simp only [List.mem_singleton] at hb'
          subst hb'
          rw [hnbid]
          exact Nat.lt_succ_self _
      · intro b hb
        dsimp only at hb ⊢
        simp only [List.map_append, List.map_cons, List.map_nil]
        rcases List.mem_append.mp hb with hb' | hb'
        · obtain ⟨y, hy, hxy⟩ := List.mem_map.mp hb'
          rw [← hxy, hgjob y]
          exact List.mem_append_left _ (href y hy)
        · simp only [List.mem_singleton] at hb'
          subst hb'
          rw [hnb]
          exact List.mem_append_right _ (by simp)
      · intro w
        by_cases hw : w = wid
        · rw [hw]
          show WFChain ((List.map (fun b =>
              if some b.id = ((buildsOf s wid).getLast?).map (fun p => p.id)
              then { b with afterID := some nb.id } else b) s.builds ++ [nb]).filter
              (fun b => decide (b.workspaceID = wid)))
          rw [List.filter_append]
          rw [filter_map_wid wid s.builds _ hgwid]
          have hnbf : List.filter (fun b => decide (b.workspaceID = wid)) [nb] = [nb] := by
            simp [hnbwid]
          rw [hnbf]
          refine wfchain_extend (buildsOf s wid) nb (hch wid) ?_ ?_ (by rw [hnb]) (by rw [hnb])
          · intro b hb
            rw [hnbid]
            intro hcontra
            exact absurd (hcontra ▸ hblt b (List.mem_of_mem_filter hb)) (lt_irrefl _)
          · intro b hb
            have hcr := coderTimesLT_builds ht b (List.mem_of_mem_filter hb)
            rw [hnb]
            exact hcr
        · show WFChain ((List.map (fun b =>
              if some b.id = ((buildsOf s wid).getLast?).map (fun p => p.id)
              then { b with afterID := some nb.id } else b) s.builds ++ [nb]).filter
              (fun b => decide (b.workspaceID = w)))
          rw [List.filter_append]
          rw [filter_map_wid w s.builds _ hgwid]
          have hnbf : List.filter (fun b => decide (b.workspaceID = w)) [nb] = [] := by
            simp [hnbwid, Ne.symm hw]
          rw [hnbf, List.append_nil]
          have hfix : ∀ b ∈ s.builds.filter (fun b => decide (b.workspaceID = w)),
              (if some b.id = ((buildsOf s wid).getLast?).map (fun p => p.id)
               then { b with afterID := some nb.id } else b) = b := by
            intro b hb
            cases hprev : (buildsOf s wid).getLast? with
            | none => simp [hprev]
            | some pp =>
                have hppmem : pp ∈ buildsOf s wid := by
                  obtain ⟨hne, heq⟩ := List.mem_getLast?_eq_getLast
                    (show pp ∈ (buildsOf s wid).getLast? from hprev)
                  rw [heq]
                  exact List.getLast_mem hne
                have hppwid : pp.workspaceID = wid := by
                  have := List.mem_filter.mp hppmem
                  simpa using this.2
                have hbw : b.workspaceID = w := by
                  have := List.mem_filter.mp hb
                  simpa using this.2
                simp only [Option.map_some']
                rw [if_neg]
                intro hcontra
                injection hcontra with hcontra
                have heqb : b = pp := map_nodup_mem_inj _ _ hbn
                  (List.mem_of_mem_filter hb) (List.mem_of_mem_filter hppmem) hcontra
                subst heqb
                exact hw (hbw ▸ hppwid)
          rw [map_id_on _ _ hfix]
          exact hch w

theorem coderInv_step (s : CoderState) (op : CoderOp) (now : Nat)
    (hinv : CoderInv s) (ht : coderTimesLT s now = true) :
    CoderInv (applyCoderOp s op now).1 := by
  cases op with
  | requestBuild wid vid tr ini payload ref =>
      have h := coderInv_requestBuild s wid vid tr ini payload ref now hinv ht
      rcases hr : requestBuild s wid vid tr ini payload ref now with ⟨s', res⟩
      rw [hr] at h
      cases res <;> simp only [applyCoderOp, hr] <;> exact h
  | importVersion ref =>
      rw [applyCoderOp_import]
      obtain ⟨hs, hbn, hblt, href, hch⟩ := hinv
      refine ⟨storeWF_enqueue _ _ _ _ _ hs, hbn, hblt, ?_, hch⟩
      intro b hb
      exact applyJobOp_ids_mono s.store
        (JobOp.enqueue ProvisionerJobType.projectVersionImport ref ref) now _ (href b hb)
  | jobOp op' =>
      rw [applyCoderOp_jobOp]
      obtain ⟨hs, hbn, hblt, href, hch⟩ := hinv
      exact ⟨storeWF_step _ _ _ hs (coderTimesLT_store ht), hbn, hblt,
        fun b hb => applyJobOp_ids_mono _ _ _ _ (href b hb), hch⟩

theorem runCoder_inv (trace : List (CoderOp × Nat)) :
    ∀ s : CoderState, CoderInv s → validTimes s trace = true →
      CoderInv (runCoder s trace).1 := by
  induction trace with
  | nil =>
      intro s h _
      exact h
  | cons p rest ih =>
      intro s h hv
      rcases p with ⟨op, t⟩
      simp only [validTimes, Bool.and_eq_true] at hv
      show CoderInv (runCoder (applyCoderOp s op t).1 rest).1
      exact ih _ (coderInv_step s op t h hv.1) hv.2

theorem reachableCoder_inv {s : CoderState} (h : ReachableCoder s) : CoderInv s := by
  obtain ⟨trace, hv, hr⟩ := h
  rw [← hr]
  exact runCoder_inv trace emptyCoderState coderInv_empty hv

theorem find?_append_none {α : Type} (p : α → Bool) (l₁ l₂ : List α)
    (h : ∀ x ∈ l₁, p x = false) : (l₁ ++ l₂).find? p = l₂.find? p := by
  induction l₁ with
  | nil => rfl
  | cons x xs ih =>
      have hx := h x (List.mem_cons_self _ _)
      simp only [List.cons_append, List.find?, hx]
      exact ih (fun y hy => h y (List.mem_cons_of_mem _ hy))

theorem buildsOf_len_requestBuild {s : CoderState} {wid vid : Nat} {tr : WorkspaceTransition}
    {ini payload ref : String} {now : Nat} {s' : CoderState} {nb : WorkspaceHistory}
    (h : requestBuild s wid vid tr ini payload ref now = (s', Except.ok nb)) (w : Nat) :
    (buildsOf s' w).length = (buildsOf s w).length + (if nb.workspaceID = w then 1 else 0) := by
  obtain ⟨hin, hnb, hs'⟩ := requestBuild_ok h
  have hgwid : ∀ b : WorkspaceHistory,
      (if some b.id = ((buildsOf s wid).getLast?).map (fun p => p.id)
       then { b with afterID := some nb.id } else b).workspaceID = b.workspaceID := by
    intro b
    by_cases hc : some b.id = ((buildsOf s wid).getLast?).map (fun p => p.id) <;> simp [hc]
  subst hs'
  show ((List.map (fun b =>
      if some b.id = ((buildsOf s wid).getLast?).map (fun p => p.id)
      then { b with afterID := some nb.id } else b) s.builds ++ [nb]).filter
      (fun b => decide (b.workspaceID = w))).length = _
  rw [List.filter_append, filter_map_wid w s.builds _ hgwid, List.length_append,
    List.length_map]
  have hone : (List.filter (fun b => decide (b.workspaceID = w)) [nb]).length =
      if nb.workspaceID = w then 1 else 0 := by
    by_cases hww : nb.workspaceID = w <;> simp [hww]
  rw [hone]
  rfl

theorem buildsOf_len_step (s : CoderState) (op : CoderOp) (now wid : Nat) :
    (buildsOf (applyCoderOp s op now).1 wid).length =
      (buildsOf s wid).length + successfulBuildsFor [(applyCoderOp s op now).2] wid := by
  cases op with
  | requestBuild wid' vid tr ini payload ref =>
      rcases hr : requestBuild s wid' vid tr ini payload ref now with ⟨s', res⟩
      cases res with
      | error e =>
          have hse := requestBuild_error_state hr
          subst hse
          simp [applyCoderOp, hr, successfulBuildsFor, List.countP_cons, List.countP_nil]
      | ok nb =>
          have hlen := buildsOf_len_requestBuild hr wid
          simp only [applyCoderOp, hr]
          rw [hlen]
          have hcnt : successfulBuildsFor [CoderOutcome.build nb] wid =
              if nb.workspaceID = wid then 1 else 0 := by
            by_cases hww : nb.workspaceID = wid <;>
              simp [successfulBuildsFor, hww, List.countP_cons, List.countP_nil]
          rw [hcnt]
  | importVersion ref =>
      simp only [applyCoderOp, importVersion]
      rcases he : enqueueJob s.store ProvisionerJobType.projectVersionImport ref ref now
        with ⟨st', res⟩
      cases res <;>
        simp [he, successfulBuildsFor, buildsOf, List.countP_cons, List.countP_nil]
  | jobOp op' =>
      cases op' with
      | enqueue jt p r =>
          rcases he : enqueueJob s.store jt p r now with ⟨st', res⟩
          cases res <;>
            simp [applyCoderOp, he, successfulBuildsFor, buildsOf, List.countP_cons,
              List.countP_nil]
      | claim d acc =>
          simp [applyCoderOp, successfulBuildsFor, buildsOf, List.countP_cons,
            List.countP_nil]
      | complete jobID =>
          rcases he : completeJob s.store jobID now with ⟨st', res⟩
          cases res <;>
            simp [applyCoderOp, he, successfulBuildsFor, buildsOf, List.countP_cons,
              List.countP_nil]
      | fail jobID msg =>
          rcases he : failJob s.store jobID msg now with ⟨st', res⟩
          cases res <;>
            simp [applyCoderOp, he, successfulBuildsFor, buildsOf, List.countP_cons,
              List.countP_nil]
      | cancel jobID =>
          rcases he : cancelJob s.store jobID now with ⟨st', res⟩
          cases res <;>
            simp [applyCoderOp, he, successfulBuildsFor, buildsOf, List.countP_cons,
              List.countP_nil]

theorem buildsOf_len_run (trace : List (CoderOp × Nat)) :
    ∀ (s : CoderState) (wid : Nat),
      (buildsOf (runCoder s trace).1 wid).length =
        (buildsOf s wid).length + successfulBuildsFor (runCoder s trace).2 wid := by
  induction trace with
  | nil =>
      intro s wid
      simp [runCoder, successfulBuildsFor]
  | cons p rest ih =>
      intro s wid
      rcases p with ⟨op, t⟩
      show (buildsOf (runCoder (applyCoderOp s op t).1 rest).1 wid).length =
        (buildsOf s wid).length +
          successfulBuildsFor
            ((applyCoderOp s op t).2 :: (runCoder (applyCoderOp s op t).1 rest).2) wid
      rw [ih (applyCoderOp s op t).1 wid, buildsOf_len_step s op t wid]
      simp only [successfulBuildsFor, List.countP_cons, List.countP_nil]
      omega

theorem requestBuild_inflight_conflict (s : CoderState) (wid vid : Nat)
    (tr : WorkspaceTransition) (ini payload ref : String) (now : Nat)
    (h : hasInFlightBuild s wid = true) :
    requestBuild s wid vid tr ini payload ref now = (s, Except.error BuildError.conflict) := by
  simp [requestBuild, h]

theorem requestBuild_then_inflight {s : CoderState} {wid vid : Nat} {tr : WorkspaceTransition}
    {ini payload ref : String} {now : Nat} {s' : CoderState} {nb : WorkspaceHistory}
    (hids : ∀ j ∈ s.store.jobs, j.id < s.store.nextID)
    (h : requestBuild s wid vid tr ini payload ref now = (s', Except.ok nb)) :
    hasInFlightBuild s' wid = true := by
  obtain ⟨hin, hnb, hs'⟩ := requestBuild_ok h
  have hprov : nb.provisionJobID = s.store.nextID := by rw [hnb]
  have hfalse : ∀ j ∈ s.store.jobs, decide (j.id = nb.provisionJobID) = false := by
    intro j hj
    rw [hprov]
    exact decide_eq_false (Nat.ne_of_lt (hids j hj))
  have hfind : findJob s'.store nb.provisionJobID =
      some { id := s.store.nextID, createdAt := now, startedAt := none, cancelledAt := none,
             completedAt := none, jobError := none,
             jobType := ProvisionerJobType.workspaceProvision, input := payload,
             storageSource := ref, workerID := none } := by
    rw [hs']
    show (s.store.jobs ++ [_]).find?
      (fun j : ProvisionerJob => decide (j.id = nb.provisionJobID)) = _
    rw [find?_append_none _ s.store.jobs _ hfalse]
    simp [List.find?, hprov]
  have hmem : nb ∈ buildsOf s' wid := by
    rw [hs']
    show nb ∈ List.filter (fun b => decide (b.workspaceID = wid))
      (List.map (fun b =>
        if some b.id = ((buildsOf s wid).getLast?).map (fun p => p.id)
        then { b with afterID := some nb.id } else b) s.builds ++ [nb])
    refine List.mem_filter.mpr ⟨?_, by simp [hnb]⟩
    exact List.mem_append_right _ (List.mem_singleton.mpr rfl)
  show (buildsOf s' wid).any (buildInFlight s') = true
  refine List.any_eq_true.mpr ⟨nb, hmem, ?_⟩
  show buildInFlight s' nb = true
  simp [buildInFlight, hfind, ProvisionerJob.isTerminal]

/-- C3.  In every orchestration state reached by a validly-timed trace
from the empty state, `history` succeeds and returns exactly the
workspace's stored builds, those builds are in strictly increasing
creation order, and their number equals the number of successful
`RequestBuild` calls for that workspace in the trace (`ImportVersion`
enqueues an import job but creates no build record, and a failed
`RequestBuild` creates none); and on any stored build set with distinct
identities whose before/after link structure has a cycle or a dangling
reference, `history` returns no sequence and fails with
`CorruptHistory`. -/
theorem history_reconstructs_order_counts_builds_and_flags_corruption :
    (∀ (trace : List (CoderOp × Nat)) (wid : Nat),
      validTimes emptyCoderState trace = true →
      history (runCoder emptyCoderState trace).1 wid =
        Except.ok (buildsOf (runCoder emptyCoderState trace).1 wid) ∧
      List.Chain' (fun a b => a.createdAt < b.createdAt)
        (buildsOf (runCoder emptyCoderState trace).1 wid) ∧
      (buildsOf (runCoder emptyCoderState trace).1 wid).length =
        successfulBuildsFor (runCoder emptyCoderState trace).2 wid) ∧
    (∀ (s : CoderState) (wid : Nat),
      ((buildsOf s wid).map WorkspaceHistory.id).Nodup →
      HasCycle (buildsOf s wid) ∨ HasDangling (buildsOf s wid) →
      history s wid = Except.error BuildError.corruptHistory) := by
  constructor
  · intro trace wid hv
    obtain ⟨hs, hbn, hblt, href, hch⟩ := runCoder_inv trace emptyCoderState coderInv_empty hv
    refine ⟨history_of_wfchain _ _ (hch wid), (hch wid).2.2.2.2, ?_⟩
    have hlen := buildsOf_len_run trace emptyCoderState wid
    simpa [buildsOf, emptyCoderState] using hlen
  · intro s wid hnod hcor
    exact history_corrupt s wid hnod hcor

/-- Closed instance of C3: a one-request trace yields a history equal to
the stored builds of the workspace with as many entries as successful
requests, and a concrete store with a dangling `after` reference is
reported corrupt. -/
theorem history_reconstructs_witness :
    history (runCoder emptyCoderState
        [(CoderOp.requestBuild 1 5 WorkspaceTransition.start "me" "p" "r", 1)]).1 1 =
      Except.ok (buildsOf (runCoder emptyCoderState
        [(CoderOp.requestBuild 1 5 WorkspaceTransition.start "me" "p" "r", 1)]).1 1) ∧
    (buildsOf (runCoder emptyCoderState
        [(CoderOp.requestBuild 1 5 WorkspaceTransition.start "me" "p" "r", 1)]).1 1).length =
      successfulBuildsFor (runCoder emptyCoderState
        [(CoderOp.requestBuild 1 5 WorkspaceTransition.start "me" "p" "r", 1)]).2 1 ∧
    history { store := emptyJobStore,
              builds := [{ id := 0, createdAt := 0, workspaceID := 1, projectVersionID := 0,
                           transition := WorkspaceTransition.start, initiator := "",
                           provisionerState := "", beforeID := none, afterID := some 5,
                           provisionJobID := 0 }],
              nextBuildID := 2 } 1 = Except.error BuildError.corruptHistory := by
  refine ⟨(history_reconstructs_order_counts_builds_and_flags_corruption.1
      [(CoderOp.requestBuild 1 5 WorkspaceTransition.start "me" "p" "r", 1)] 1 (by decide)).1,
    (history_reconstructs_order_counts_builds_and_flags_corruption.1
      [(CoderOp.requestBuild 1 5 WorkspaceTransition.start "me" "p" "r", 1)] 1 (by decide)).2.2,
    history_reconstructs_order_counts_builds_and_flags_corruption.2
      { store := emptyJobStore,
        builds := [{ id := 0, createdAt := 0, workspaceID := 1, projectVersionID := 0,
                     transition := WorkspaceTransition.start, initiator := "",
                     provisionerState := "", beforeID := none, afterID := some 5,
                     provisionJobID := 0 }],
        nextBuildID := 2 } 1 (by decide)
      (Or.inr ⟨{ id := 0, createdAt := 0, workspaceID := 1, projectVersionID := 0,
                 transition := WorkspaceTransition.start, initiator := "",
                 provisionerState := "", beforeID := none, afterID := some 5,
                 provisionJobID := 0 }, by decide,
        Or.inl ⟨5, rfl, by decide⟩⟩)⟩

/-- C4.  A `RequestBuild` call on a workspace that already has a build
whose referenced job is non-terminal fails with `Conflict`; every failed
`RequestBuild` leaves the whole orchestration state — jobs and builds —
exactly as it was (so no job is enqueued and no partial state remains);
and after a successful `RequestBuild`, a second call for the same
workspace before its job terminates fails with `Conflict` and changes
nothing. -/
theorem requestBuild_conflict_and_no_partial_state :
    (∀ (s : CoderState) (wid vid : Nat) (tr : WorkspaceTransition)
        (ini payload ref : String) (now : Nat),
      hasInFlightBuild s wid = true →
      requestBuild s wid vid tr ini payload ref now = (s, Except.error BuildError.conflict)) ∧
    (∀ (s : CoderState) (wid vid : Nat) (tr : WorkspaceTransition)
        (ini payload ref : String) (now : Nat) (s' : CoderState) (e : BuildError),
      requestBuild s wid vid tr ini payload ref now = (s', Except.error e) → s' = s) ∧
    (∀ (s : CoderState) (wid vid : Nat) (tr : WorkspaceTransition)
        (ini payload ref : String) (now : Nat) (s' : CoderState) (nb : WorkspaceHistory),
      (∀ j ∈ s.store.jobs, j.id < s.store.nextID) →
      requestBuild s wid vid tr ini payload ref now = (s', Except.ok nb) →
      ∀ (vid2 : Nat) (tr2 : WorkspaceTransition) (ini2 payload2 ref2 : String) (now2 : Nat),
        requestBuild s' wid vid2 tr2 ini2 payload2 ref2 now2 =
          (s', Except.error BuildError.conflict)) := by
  refine ⟨?_, ?_, ?_⟩
  · intro s wid vid tr ini payload ref now h
    exact requestBuild_inflight_conflict s wid vid tr ini payload ref now h
  · intro s wid vid tr ini payload ref now s' e h
    exact requestBuild_error_state h
  · intro s wid vid tr ini payload ref now s' nb hids h vid2 tr2 ini2 payload2 ref2 now2
    exact requestBuild_inflight_conflict s' wid vid2 tr2 ini2 payload2 ref2 now2
      (requestBuild_then_inflight hids h)

/-- Closed instance of C4: from the empty state one `RequestBuild`
succeeds, and a second request for the same workspace while the
enqueued job is still pending fails with `Conflict` leaving the state
untouched. -/
theorem requestBuild_conflict_witness :
    requestBuild
      { store := { jobs := [{ id := 0, createdAt := 1, startedAt := none,
                              cancelledAt := none, completedAt := none, jobError := none,
                              jobType := ProvisionerJobType.workspaceProvision,
                              input := "p", storageSource := "r", workerID := none }],
                   nextID := 1 },
        builds := [{ id := 0, createdAt := 1, workspaceID := 1, projectVersionID := 5,
                     transition := WorkspaceTransition.start, initiator := "me",
                     provisionerState := "", beforeID := none, afterID := none,
                     provisionJobID := 0 }],
        nextBuildID := 1 } 1 6 WorkspaceTransition.stop "you" "p2" "r2" 2 =
      ({ store := { jobs := [{ id := 0, createdAt := 1, startedAt := none,
                               cancelledAt := none, completedAt := none, jobError := none,
                               jobType := ProvisionerJobType.workspaceProvision,
                               input := "p", storageSource := "r", workerID := none }],
                    nextID := 1 },
         builds := [{ id := 0, createdAt := 1, workspaceID := 1, projectVersionID := 5,
                      transition := WorkspaceTransition.start, initiator := "me",
                      provisionerState := "", beforeID := none, afterID := none,
                      provisionJobID := 0 }],
         nextBuildID := 1 }, Except.error BuildError.conflict) :=
  requestBuild_conflict_and_no_partial_state.2.2 emptyCoderState 1 5
    WorkspaceTransition.start "me" "p" "r" 1
    { store := { jobs := [{ id := 0, createdAt := 1, startedAt := none,
                            cancelledAt := none, completedAt := none, jobError := none,
                            jobType := ProvisionerJobType.workspaceProvision,
                            input := "p", storageSource := "r", workerID := none }],
                 nextID := 1 },
      builds := [{ id := 0, createdAt := 1, workspaceID := 1, projectVersionID := 5,
                   transition := WorkspaceTransition.start, initiator := "me",
                   provisionerState := "", beforeID := none, afterID := none,
                   provisionJobID := 0 }],
      nextBuildID := 1 }
    { id := 0, createdAt := 1, workspaceID := 1, projectVersionID := 5,
      transition := WorkspaceTransition.start, initiator := "me", provisionerState := "",
      beforeID := none, afterID := none, provisionJobID := 0 }
    (by intro j hj; simp [emptyCoderState, emptyJobStore] at hj) rfl
    6 WorkspaceTransition.stop "you" "p2" "r2" 2
